import Mathlib

/-!
A shallow embedding of the mini-React runtime found in this repository
(reconciler, identity and hook store, render scheduler), together with
theorems settling the specification claims.

Conventions of the embedding:
* JavaScript values appearing in props, hook slots and dependency arrays are
  modelled by the inductive JSVal.  Reference identity of functions and of
  objects is modelled by a numeric id carried in the corresponding
  constructor; jsIs is the translation of Object.is on this universe.
* Mutable JS Maps and plain objects are modelled as association lists.
* The DOM is an arena: a map from numeric node ids to node payloads plus a
  map from node ids to ordered child-id lists.
* The global runtime context (context.root, context.hooks, context.effects
  and the scheduler flags of the two withEnqueue wrappers) is one explicit
  state record, GState.  Stateful code runs in the monad
  RunM alpha = GState -> Except RErr alpha x GState; a thrown JS exception is
  an error result, and the state at the moment of the throw is kept, exactly
  as JS global mutable state survives an exception.
* Tree recursion (reconcile can re-enter itself through the vnode returned
  by a component function, which is not structurally smaller) is bounded by
  explicit fuel; running out of fuel raises the outOfFuel error, the
  analogue of JS stack exhaustion.
-/

namespace MiniReact

/-- JavaScript values as they occur in props, state slots and deps arrays.
Functions and objects carry a numeric identity standing for their JS
reference; object fields are flat string maps (enough for style objects). -/
inductive JSVal where
  | vnull
  | vundef
  | vbool (b : Bool)
  | vnum (n : Int)
  | vstr (s : String)
  | vfn (id : Nat)
  | vobj (id : Nat) (fields : List (String × String))
deriving DecidableEq, Repr

/-- Translation of Object.is on the modelled value universe: primitives are
compared structurally, functions and objects by reference identity (their
id). -/
def jsIs : JSVal → JSVal → Bool
  | JSVal.vnull, JSVal.vnull => true
  | JSVal.vundef, JSVal.vundef => true
  | JSVal.vbool a, JSVal.vbool b => a == b
  | JSVal.vnum a, JSVal.vnum b => a == b
  | JSVal.vstr a, JSVal.vstr b => a == b
  | JSVal.vfn a, JSVal.vfn b => a == b
  | JSVal.vobj a _, JSVal.vobj b _ => a == b
  | _, _ => false

/-- JS truthiness of a modelled value. -/
def jsTruthy : JSVal → Bool
  | JSVal.vnull => false
  | JSVal.vundef => false
  | JSVal.vbool b => b
  | JSVal.vnum n => n != 0
  | JSVal.vstr s => s != ""
  | JSVal.vfn _ => true
  | JSVal.vobj _ _ => true

/-- JS string coercion of a modelled value (used by createTextNode,
setAttribute and the className assignment). -/
def jsToString : JSVal → String
  | JSVal.vnull => "null"
  | JSVal.vundef => "undefined"
  | JSVal.vbool b => if b then "true" else "false"
  | JSVal.vnum n => toString n
  | JSVal.vstr s => s
  | JSVal.vfn _ => "function"
  | JSVal.vobj _ _ => "object"

/-- Association-list lookup (model of Map.get / object indexing). -/
def lookupA {κ α : Type} [DecidableEq κ] : List (κ × α) → κ → Option α
  | [], _ => none
  | (k, v) :: rest, key => if k = key then some v else lookupA rest key

/-- Association-list update: overwrite the first binding of the key, or
append a new binding (model of Map.set / property assignment, which keeps
insertion order of keys). -/
def setA {κ α : Type} [DecidableEq κ] : List (κ × α) → κ → α → List (κ × α)
  | [], key, v => [(key, v)]
  | (k, w) :: rest, key, v =>
    if k = key then (key, v) :: rest else (k, w) :: setA rest key v

/-- Association-list removal (model of Map.delete / removeAttribute). -/
def removeA {κ α : Type} [DecidableEq κ] : List (κ × α) → κ → List (κ × α)
  | [], _ => []
  | (k, w) :: rest, key =>
    if k = key then removeA rest key else (k, w) :: removeA rest key

/-- Key membership in an association list (model of the JS "in" operator
and Map.has). -/
def hasA {κ α : Type} [DecidableEq κ] (l : List (κ × α)) (key : κ) : Bool :=
  (lookupA l key).isSome

/-- String prefix test over the character list (String.startsWith works on
byte positions, which the kernel cannot reduce; this equivalent form
evaluates). -/
def strStartsWith (s pre : String) : Bool :=
  pre.data.isPrefixOf s.data

/-- Drop the first n characters of a string. -/
def strDrop (s : String) (n : Nat) : String :=
  String.mk (s.data.drop n)

/-- ASCII lower-casing of a string, character by character. -/
def charLower (c : Char) : Char :=
  if 65 ≤ c.toNat ∧ c.toNat ≤ 90 then Char.ofNat (c.toNat + 32) else c

def strToLower (s : String) : String :=
  String.mk (s.data.map charLower)

/-- The type discriminator of a VNode: the text marker, a host tag string,
the fragment marker, a component function (identified by reference id), or
any other value (an exotic type the mount switch does not recognize). -/
inductive NType where
  | text
  | host (tag : String)
  | frag
  | comp (id : Nat) (name : String)
  | exotic (id : Nat)
deriving DecidableEq, Repr

/-- Virtual node: type discriminator, key, props (children kept as a
separate field of the structure; the source stores them under props.children
and every consumer reads exactly that field). -/
inductive VNode where
  | mk (ty : NType) (key : Option String) (props : List (String × JSVal))
       (children : List VNode)

def VNode.ty : VNode → NType
  | VNode.mk t _ _ _ => t

def VNode.key : VNode → Option String
  | VNode.mk _ k _ _ => k

def VNode.props : VNode → List (String × JSVal)
  | VNode.mk _ _ p _ => p

def VNode.children : VNode → List VNode
  | VNode.mk _ _ _ c => c

/-- Modelled from the spec: isEmptyValue (defined in the utils module that
is not part of the provided sources) recognizes null, undefined, booleans
and empty-string-equivalent values.  A constructed VNode object is none of
these, so on VNode arguments the predicate is constantly false. -/
def isEmptyValueV (_ : VNode) : Bool := false

/-- Translation of createChildPath (elements module): key-based path when a
key is present, otherwise an index- and type-based path using a same-type
occurrence counter among the given siblings. -/
def typeNameOf : NType → String
  | NType.text => "TEXT_ELEMENT"
  | NType.host tag => tag
  | NType.frag => "Fragment"
  | NType.comp _ name => name
  | NType.exotic id => "Symbol" ++ toString id

def countSameType (siblings : List VNode) (ty : NType) (index : Nat) : Nat :=
  ((siblings.take index).filter (fun s => s.ty = ty)).length

def createChildPath (parentPath : String) (key : Option String) (index : Nat)
    (nodeType : NType) (siblings : List VNode) : String :=
  match key with
  | some k => parentPath ++ "k" ++ k
  | none =>
    let typeIndex := countSameType siblings nodeType index
    parentPath ++ ".i" ++ toString index ++ ".c" ++ typeNameOf nodeType
      ++ "_" ++ toString typeIndex

/-- The observable state of a host element: registered event listeners, the
className property, the style map, data attributes, and generic properties
(a generic property removed by the diff is set to the undefined value, as
the source assigns undefined rather than deleting). -/
structure ElemProps where
  listeners : List (String × Nat)
  className : String
  style : List (String × String)
  attrs : List (String × String)
  gprops : List (String × JSVal)
deriving DecidableEq, Repr

def ElemProps.empty : ElemProps :=
  { listeners := [], className := "", style := [], attrs := [], gprops := [] }

/-- A realized host node: a text node with its nodeValue, or an element with
its tag and observable properties. -/
inductive DNode where
  | textN (value : String)
  | elemN (tag : String) (ps : ElemProps)
deriving DecidableEq, Repr

/-- The host-tree arena: node payloads by id, ordered child lists by id, and
the next fresh id.  The render container is itself a node of the arena. -/
structure Doc where
  nodes : List (Nat × DNode)
  kids : List (Nat × List Nat)
  nextId : Nat
deriving DecidableEq, Repr

def Doc.getNode (d : Doc) (id : Nat) : Option DNode := lookupA d.nodes id

def Doc.setNode (d : Doc) (id : Nat) (n : DNode) : Doc :=
  { d with nodes := setA d.nodes id n }

def Doc.kidsOf (d : Doc) (id : Nat) : List Nat := (lookupA d.kids id).getD []

def Doc.parentOf (d : Doc) (id : Nat) : Option Nat :=
  (d.kids.find? (fun p => p.2.contains id)).map (fun p => p.1)

/-- document.createTextNode: register a fresh text node (detached). -/
def Doc.createText (d : Doc) (s : String) : Doc × Nat :=
  ({ nodes := setA d.nodes d.nextId (DNode.textN s)
   , kids := setA d.kids d.nextId []
   , nextId := d.nextId + 1 }, d.nextId)

/-- document.createElement: register a fresh element node (detached). -/
def Doc.createElem (d : Doc) (tag : String) : Doc × Nat :=
  ({ nodes := setA d.nodes d.nextId (DNode.elemN tag ElemProps.empty)
   , kids := setA d.kids d.nextId []
   , nextId := d.nextId + 1 }, d.nextId)

/-- Remove a node id from every child list (a DOM node is detached from its
current parent before it is inserted elsewhere). -/
def Doc.detach (d : Doc) (id : Nat) : Doc :=
  { d with kids := d.kids.map (fun p => (p.1, p.2.filter (fun k => k ≠ id))) }

def insertBeforeL (l : List Nat) (node : Nat) (anchor : Option Nat) : List Nat :=
  match anchor with
  | none => l ++ [node]
  | some a =>
    match l with
    | [] => [node]
    | x :: rest =>
      if x = a then node :: x :: rest else x :: insertBeforeL rest node anchor

/-- parentDom.insertBefore(node, anchor): detach the node from its current
parent, then insert it before the anchor in the parent child list (an
absent anchor appends, the behavior of insertBefore with a null anchor). -/
def Doc.insertBeforeD (d : Doc) (parent : Nat) (node : Nat)
    (anchor : Option Nat) : Doc :=
  let d1 := d.detach node
  { d1 with kids := setA d1.kids parent (insertBeforeL (d1.kidsOf parent) node anchor) }

/-- parentDom.appendChild(node). -/
def Doc.appendChildD (d : Doc) (parent : Nat) (node : Nat) : Doc :=
  d.insertBeforeD parent node none

/-- parentDom.removeChild(node): remove the node from the parent child
list; the node itself stays in the arena as a detached node. -/
def Doc.removeChildD (d : Doc) (parent : Nat) (node : Nat) : Doc :=
  { d with kids := setA d.kids parent ((d.kidsOf parent).filter (fun k => k ≠ node)) }

/-- The next sibling of a node inside an ordered child list. -/
def nextSiblingIn : List Nat → Nat → Option Nat
  | [], _ => none
  | [_], _ => none
  | x :: y :: rest, node =>
    if x = node then some y else nextSiblingIn (y :: rest) node

def isFnV : JSVal → Bool
  | JSVal.vfn _ => true
  | _ => false

def fnIdV : JSVal → Nat
  | JSVal.vfn f => f
  | _ => 0

/-- typeof v === "object" (true for objects and for null). -/
def isObjectV : JSVal → Bool
  | JSVal.vobj _ _ => true
  | JSVal.vnull => true
  | _ => false

/-- addEventListener: a (type, listener) pair already registered is not
added again. -/
def addListener (e : ElemProps) (name : String) (f : Nat) : ElemProps :=
  if e.listeners.contains (name, f) then e
  else { e with listeners := e.listeners ++ [(name, f)] }

/-- removeEventListener: drop the matching (type, listener) registration. -/
def removeListener (e : ElemProps) (name : String) (f : Nat) : ElemProps :=
  { e with listeners := e.listeners.filter (fun p => p ≠ (name, f)) }

/-- Object.assign onto the style map, field by field in order. -/
def assignFields (style : List (String × String))
    (fields : List (String × String)) : List (String × String) :=
  fields.foldl (fun st p => setA st p.1 p.2) style

/-- Translation of the body of setDomProps for a single key. -/
def setDomProp1 (e : ElemProps) (key : String) (v : JSVal) : ElemProps :=
  if key = "children" then e
  else if strStartsWith key "on" ∧ isFnV v then
    addListener e (strToLower (strDrop key 2)) (fnIdV v)
  else if key = "className" then
    { e with className := if jsTruthy v then jsToString v else "" }
  else if key = "style" ∧ isObjectV v then
    match v with
    | JSVal.vobj _ fields => { e with style := assignFields e.style fields }
    | _ => e
  else if strStartsWith key "data-" then
    { e with attrs := setA e.attrs key (jsToString v) }
  else
    { e with gprops := setA e.gprops key v }

/-- Translation of setDomProps: iterate the props keys in order (the
children key is skipped). -/
def setDomPropsE (e : ElemProps) (props : List (String × JSVal)) : ElemProps :=
  props.foldl (fun e p => setDomProp1 e p.1 p.2) e

/-- The guard by which updateDomProps decides that a previous style key must
be cleared: the next style value is absent or falsy, or lacks the key. -/
def styleKeyGone (nextStyle : Option JSVal) (sk : String) : Bool :=
  match nextStyle with
  | none => true
  | some v =>
    if jsTruthy v then
      match v with
      | JSVal.vobj _ nf => ¬ hasA nf sk
      | _ => true
    else true

def clearStyles (style : List (String × String))
    (prevFields : List (String × String)) (nextStyle : Option JSVal) :
    List (String × String) :=
  prevFields.foldl
    (fun st p => if styleKeyGone nextStyle p.1 then setA st p.1 "" else st) style

/-- Translation of the removal phase of updateDomProps for a single previous
key.  The className branch is an exact translation of the source: its body
is empty (the source comment defers removal to setDomProps, which never
removes an absent key), so a className present only in the old props is left
untouched. -/
def removeDomProp1 (e : ElemProps) (nextProps : List (String × JSVal))
    (key : String) (v : JSVal) : ElemProps :=
  if key = "children" then e
  else if strStartsWith key "on" ∧ isFnV v then
    removeListener e (strToLower (strDrop key 2)) (fnIdV v)
  else if key = "className" then e
  else if key = "style" ∧ isObjectV v then
    match v with
    | JSVal.vobj _ fields =>
      { e with style := clearStyles e.style fields (lookupA nextProps "style") }
    | _ => e
  else if strStartsWith key "data-" then
    if hasA nextProps key then e else { e with attrs := removeA e.attrs key }
  else if hasA nextProps key then e
  else { e with gprops := setA e.gprops key JSVal.vundef }

/-- Translation of updateDomProps: run the removal phase over the previous
props, then apply all next props through setDomProps. -/
def updateDomPropsE (e : ElemProps) (prevProps nextProps : List (String × JSVal)) :
    ElemProps :=
  setDomPropsE (prevProps.foldl (fun e p => removeDomProp1 e nextProps p.1 p.2) e)
    nextProps

/-- Apply setDomProps to an element of the arena. -/
def Doc.setDomPropsDoc (d : Doc) (id : Nat) (props : List (String × JSVal)) : Doc :=
  match d.getNode id with
  | some (DNode.elemN tag ps) => d.setNode id (DNode.elemN tag (setDomPropsE ps props))
  | _ => d

/-- Apply updateDomProps to an element of the arena. -/
def Doc.updateDomPropsDoc (d : Doc) (id : Nat)
    (prevProps nextProps : List (String × JSVal)) : Doc :=
  match d.getNode id with
  | some (DNode.elemN tag ps) =>
    d.setNode id (DNode.elemN tag (updateDomPropsE ps prevProps nextProps))
  | _ => d

/-- The kind discriminator of an instance (NodeTypes in the source). -/
inductive NodeKind where
  | textK
  | hostK
  | fragK
  | compK
deriving DecidableEq, Repr

/-- An instance of the committed tree: kind, realized host node (by id),
the vnode last committed here, ordered children (a none entry marks a
positionally absent child), key and identity path. -/
inductive Instance where
  | mk (kind : NodeKind) (dom : Option Nat) (node : VNode)
       (children : List (Option Instance)) (key : Option String) (path : String)

def Instance.kind : Instance → NodeKind
  | Instance.mk k _ _ _ _ _ => k

def Instance.dom : Instance → Option Nat
  | Instance.mk _ d _ _ _ _ => d

def Instance.node : Instance → VNode
  | Instance.mk _ _ n _ _ _ => n

def Instance.children : Instance → List (Option Instance)
  | Instance.mk _ _ _ c _ _ => c

def Instance.key : Instance → Option String
  | Instance.mk _ _ _ _ k _ => k

def Instance.path : Instance → String
  | Instance.mk _ _ _ _ _ p => p

/-- Translation of getDomNodes, bounded by fuel (the recursion descends the
instance tree; exhausted fuel yields the empty collection and is never
reached at the depths used in this development). -/
def getDomNodesF : Nat → Option Instance → List Nat
  | _, none => []
  | 0, some _ => []
  | fuel + 1, some i =>
    match i.kind with
    | NodeKind.textK => match i.dom with | some d => [d] | none => []
    | NodeKind.hostK => match i.dom with | some d => [d] | none => []
    | _ => (i.children.map (fun c => getDomNodesF fuel c)).flatten

/-- The depth-first search shared by getFirstDom and
getFirstDomFromChildren, written on an explicit worklist so that the
recursion is structural on fuel: a text or host instance yields its dom and
the search stops inside that subtree (a null dom there moves on to the next
list entry, as the null return value of getFirstDom does in the source);
fragment and component instances are expanded into their children. -/
def getFirstDomGo : Nat → List (Option Instance) → Option Nat
  | 0, _ => none
  | _, [] => none
  | fuel + 1, none :: rest => getFirstDomGo fuel rest
  | fuel + 1, some i :: rest =>
    match i.kind with
    | NodeKind.textK =>
      (match i.dom with
       | some d => some d
       | none => getFirstDomGo fuel rest)
    | NodeKind.hostK =>
      (match i.dom with
       | some d => some d
       | none => getFirstDomGo fuel rest)
    | _ => getFirstDomGo fuel (i.children ++ rest)

/-- Translation of getFirstDom. -/
def getFirstDomF (fuel : Nat) (inst : Option Instance) : Option Nat :=
  getFirstDomGo fuel [inst]

/-- Translation of getFirstDomFromChildren. -/
def getFirstDomFromChildrenF (fuel : Nat) (children : List (Option Instance)) :
    Option Nat :=
  getFirstDomGo fuel children

/-- Sequential insertion of the remaining collected nodes, each before the
next sibling of the previously inserted one. -/
def insertSeqD : Doc → Nat → Nat → List Nat → Doc
  | d, _, _, [] => d
  | d, parent, prev, n :: rest =>
    let anchor := nextSiblingIn (d.kidsOf parent) prev
    insertSeqD (d.insertBeforeD parent n anchor) parent n rest

/-- Translation of insertInstance on the arena. -/
def insertInstanceD (fuel : Nat) (d : Doc) (parent : Nat)
    (inst : Option Instance) (anchor : Option Nat) : Doc :=
  match inst with
  | none => d
  | some i =>
    let ds := getDomNodesF fuel (some i)
    match ds with
    | [] => d
    | first :: rest =>
      match anchor with
      | some a => insertSeqD (d.insertBeforeD parent first (some a)) parent first rest
      | none => (first :: rest).foldl (fun d n => d.appendChildD parent n) d

/-- Translation of removeInstance on the arena: every collected host node
whose parent is the given parent is removed from it. -/
def removeInstanceD (fuel : Nat) (d : Doc) (parent : Nat)
    (inst : Option Instance) : Doc :=
  (getDomNodesF fuel inst).foldl
    (fun d n => if d.parentOf n = some parent then d.removeChildD parent n else d) d

/-- A stored effect slot: the recorded deps (none models a stored null,
produced when the hook was called without deps), the stored cleanup callback
reference, and the effect body reference. -/
structure EffectRec where
  deps : Option (List JSVal)
  cleanup : Option Nat
  effectId : Nat
deriving DecidableEq, Repr

/-- One hook slot: a state value or an effect record. -/
inductive HookSlot where
  | stateSlot (v : JSVal)
  | effectSlot (r : EffectRec)
deriving DecidableEq, Repr

/-- An entry of the effect queue (context.effects.queue). -/
inductive QEntry where
  | cleanupE (path : String) (cursor : Nat) (fnId : Nat)
  | effectE (path : String) (cursor : Nat) (fnId : Nat)
deriving DecidableEq, Repr

/-- A deferred task of the single-threaded microtask queue: the coalesced
render pass, the coalesced effect-queue drain, or one deferred effect body
(the wrapper pushed by the drain through enqueue). -/
inductive GTask where
  | renderT
  | flushT
  | effectT (path : String) (cursor : Nat) (fnId : Nat)
deriving DecidableEq, Repr

/-- The data captured by a setter closure returned by useState: the identity
path, the slot cursor, and the state value read at the original call site. -/
structure Setter where
  path : String
  cursor : Nat
  captured : JSVal
deriving DecidableEq, Repr

/-- Thrown JS errors. -/
inductive RErr where
  | hookOutsideComponent
  | missingContainer
  | nullRootNode
  | userThrow (msg : String)
  | outOfFuel
deriving DecidableEq, Repr

/-- The global runtime context: the arena, the root binding, the hook store,
the effect queue, the pending flags of the two withEnqueue wrappers, the
microtask queue, and a log of the setters handed out by useState (modelling
user code keeping references to them). -/
structure GState where
  doc : Doc
  containerId : Option Nat
  rootNode : Option VNode
  rootInstance : Option Instance
  hstate : List (String × List HookSlot)
  hcursor : List (String × Nat)
  visited : List String
  stack : List String
  effectQ : List QEntry
  micro : List GTask
  renderPending : Bool
  flushPending : Bool
  setterLog : List Setter

/-- Stateful computations over the global context.  An error keeps the
state reached at the moment of the throw, exactly as a JS exception leaves
the global mutable context in place. -/
def RunM (α : Type) : Type := GState → Except RErr α × GState

def pureR {α : Type} (a : α) : RunM α := fun s => (Except.ok a, s)

def bindR {α β : Type} (m : RunM α) (f : α → RunM β) : RunM β := fun s =>
  match m s with
  | (Except.ok a, s1) => f a s1
  | (Except.error e, s1) => (Except.error e, s1)

instance monadRunM : Monad RunM where
  pure := pureR
  bind := bindR

def getS : RunM GState := fun s => (Except.ok s, s)

def modifyS (f : GState → GState) : RunM Unit := fun s => (Except.ok (), f s)

def throwE {α : Type} (e : RErr) : RunM α := fun s => (Except.error e, s)

/-- Run a computation and return its raw outcome and final state. -/
def runR {α : Type} (m : RunM α) (s : GState) : Except RErr α × GState := m s

/-- Translation of the currentPath getter: the top of the component call
stack, or a thrown error when the stack is empty. -/
def currentPathM : RunM String := fun st =>
  match st.stack.getLast? with
  | none => (Except.error RErr.hookOutsideComponent, st)
  | some p => (Except.ok p, st)

def currentCursorOf (st : GState) (path : String) : Nat :=
  (lookupA st.hcursor path).getD 0

def currentHooksOf (st : GState) (path : String) : List HookSlot :=
  (lookupA st.hstate path).getD []

/-- The initial argument of useState: a plain value or a zero-argument
producer (the source invokes a function-typed initial value). -/
inductive StateInit where
  | val (v : JSVal)
  | thunk (f : Unit → JSVal)

def evalInit : StateInit → JSVal
  | StateInit.val v => v
  | StateInit.thunk f => f ()

/-- Array index assignment as JS performs it on the hook slot array. -/
def setIdxL {α : Type} (l : List α) (i : Nat) (v : α) (pad : α) : List α :=
  if i < l.length then l.set i v
  else l ++ List.replicate (i - l.length) pad ++ [v]

/-- Write back the mutated slot array: the JS code mutates the array object
held by the state map, so the map changes only when the path has an entry
(otherwise the getter returned a fresh detached array and the mutation is
invisible). -/
def writeHooksBack (path : String) (hooks : List HookSlot) : RunM Unit :=
  modifyS (fun st =>
    if hasA st.hstate path then { st with hstate := setA st.hstate path hooks }
    else st)

/-- Modelled from the spec: the withEnqueue coalescing wrapper around render
(the utils module is not part of the provided sources).  It tracks a pending
flag: while pending, further requests are absorbed; otherwise the flag is
set and the wrapped function is scheduled to run once, asynchronously. -/
def enqueueRenderM : RunM Unit := do
  let st ← getS
  if st.renderPending then pure ()
  else modifyS (fun st =>
    { st with renderPending := true, micro := st.micro ++ [GTask.renderT] })

/-- The argument accepted by a state setter: a literal value or an updater
receiving the previous value. -/
inductive SetArg where
  | val (v : JSVal)
  | upd (f : JSVal → JSVal)

/-- The slot write performed by a setter: index assignment into the slot
array the closure captured.  The captured array is the one held by the
state map while the path has an entry, so the map changes exactly then
(otherwise the mutation hits a detached array and is invisible). -/
def setSlotWrite (s : Setter) (newValue : JSVal) (st : GState) : GState :=
  let hooks1 := setIdxL (currentHooksOf st s.path) s.cursor
    (HookSlot.stateSlot newValue) (HookSlot.stateSlot JSVal.vundef)
  if hasA st.hstate s.path then
    { st with hstate := setA st.hstate s.path hooks1 }
  else st

/-- Translation of the setter created by useState.  The closure captured the
state value read at the hook call (Setter.captured) and the slot array; the
comparison is against that captured value, and the updater receives it. -/
def setStateM (s : Setter) (arg : SetArg) : RunM Unit := do
  let newValue := match arg with | SetArg.val v => v | SetArg.upd f => f s.captured
  if jsIs s.captured newValue then pure ()
  else do
    modifyS (setSlotWrite s newValue)
    enqueueRenderM

/-- Translation of useState. -/
def useStateM (init : StateInit) : RunM (JSVal × Setter) := do
  let path ← currentPathM
  let st ← getS
  let cursor := currentCursorOf st path
  let hooks := currentHooksOf st path
  let hooks1 :=
    if hooks.length ≤ cursor then hooks ++ [HookSlot.stateSlot (evalInit init)]
    else hooks
  writeHooksBack path hooks1
  let state :=
    match hooks1.get? cursor with
    | some (HookSlot.stateSlot v) => v
    | some (HookSlot.effectSlot _) => JSVal.vundef
    | none => JSVal.vundef
  let setter : Setter := { path := path, cursor := cursor, captured := state }
  modifyS (fun st => { st with setterLog := st.setterLog ++ [setter] })
  modifyS (fun st => { st with hcursor := setA st.hcursor path (cursor + 1) })
  pure (state, setter)

/-- The specialization of shallowEquals (utils/equals) at the arguments
useEffect passes it: the stored deps (an array, or null when the previous
call had no deps) against the new deps array.  A stored null is not
shallow-equal to an array; arrays are compared by length and element-wise
Object.is. -/
def shallowEqualsDeps : Option (List JSVal) → List JSVal → Bool
  | none, _ => false
  | some prev, d =>
    prev.length == d.length && (List.zip prev d).all (fun p => jsIs p.1 p.2)

/-- Translation of useEffect. -/
def useEffectM (eid : Nat) (deps : Option (List JSVal)) : RunM Unit := do
  let path ← currentPathM
  let st ← getS
  let cursor := currentCursorOf st path
  let hooks := currentHooksOf st path
  let prevHook : Option EffectRec :=
    match hooks.get? cursor with
    | some (HookSlot.effectSlot r) => some r
    | _ => none
  let shouldRun :=
    match prevHook with
    | none => true
    | some r =>
      match deps with
      | none => true
      | some d => ¬ shallowEqualsDeps r.deps d
  if shouldRun then do
    (match prevHook with
     | some r =>
       match r.cleanup with
       | some c => modifyS (fun st =>
           { st with effectQ := st.effectQ ++ [QEntry.cleanupE path cursor c] })
       | none => pure ()
     | none => pure ())
    let hook : EffectRec := { deps := deps, cleanup := none, effectId := eid }
    let hooks2 :=
      if hooks.length ≤ cursor then hooks ++ [HookSlot.effectSlot hook]
      else hooks.set cursor (HookSlot.effectSlot hook)
    writeHooksBack path hooks2
    modifyS (fun st =>
      { st with effectQ := st.effectQ ++ [QEntry.effectE path cursor eid] })
  else
    (match prevHook with
     | some r =>
       if hooks.length ≤ cursor then writeHooksBack path (hooks ++ [HookSlot.effectSlot r])
       else pure ()
     | none => pure ())
  modifyS (fun st => { st with hcursor := setA st.hcursor path (cursor + 1) })

/-- Translation of cleanupUnusedHooks: delete slot list and cursor of every
path of the state map that is not in the visited set, then clear the
visited set. -/
def cleanupUnusedHooksM : RunM Unit := do
  let st ← getS
  let pathsToRemove :=
    (st.hstate.map (fun p => p.1)).filter (fun p => ¬ st.visited.contains p)
  modifyS (fun st =>
    { st with
      hstate := pathsToRemove.foldl (fun m p => removeA m p) st.hstate,
      hcursor := pathsToRemove.foldl (fun m p => removeA m p) st.hcursor,
      visited := [] })

/-- A component function body, deep-embedded as the sequence of hook calls
it performs before returning a child vnode (or throwing).  The returned
value none models a component returning null. -/
inductive CompBody where
  | ret (v : Option VNode)
  | throwB (msg : String)
  | useStateB (init : StateInit) (k : JSVal → CompBody)
  | useEffectB (eid : Nat) (deps : Option (List JSVal)) (k : CompBody)

/-- Execute a component body: each hook call runs its translated hook
function, and the continuation receives the state value. -/
def runBody : CompBody → RunM (Option VNode)
  | CompBody.ret v => pure v
  | CompBody.throwB msg => throwE (RErr.userThrow msg)
  | CompBody.useStateB init k => do
    let r ← useStateM init
    runBody (k r.1)
  | CompBody.useEffectB eid deps k => do
    useEffectM eid deps
    runBody k

/-- The component environment: resolves a component function reference id,
applied to props and children, to its body. -/
def CompEnv : Type := Nat → List (String × JSVal) → List VNode → CompBody

/-- The type of the recursive reconcile callback threaded through the child
loop and the component paths: parent host id, previous instance, next
vnode, path. -/
def RecFn : Type := Nat → Option Instance → Option VNode → String → RunM (Option Instance)

/-- Add a path to the visited set (Set.add). -/
def addVisitedM (path : String) : RunM Unit :=
  modifyS (fun st =>
    if st.visited.contains path then st
    else { st with visited := st.visited ++ [path] })

/-- The try/finally of the component paths: run the computation, then pop
the component call stack whether it succeeded or threw. -/
def withPopFinally {α : Type} (m : RunM α) : RunM α := fun st =>
  let r := m st
  (r.1, { r.2 with stack := r.2.stack.dropLast })

/-- node.props.nodeValue coalesced with the empty string. -/
def nodeValueStrOf (props : List (String × JSVal)) : String :=
  match lookupA props "nodeValue" with
  | none => ""
  | some JSVal.vnull => ""
  | some JSVal.vundef => ""
  | some v => jsToString v

/-- The statements mountComponent runs before entering its try block: push
the path, mark it visited, and initialize absent slot list and cursor. -/
def compEnterMount (path : String) : RunM Unit := do
  modifyS (fun st => { st with stack := st.stack ++ [path] })
  addVisitedM path
  modifyS (fun st =>
    if hasA st.hstate path then st else { st with hstate := setA st.hstate path [] })
  modifyS (fun st =>
    if hasA st.hcursor path then st else { st with hcursor := setA st.hcursor path 0 })

/-- The statements updateComponent runs before entering its try block: push
the path, mark it visited, and reset the cursor to 0. -/
def compEnterUpdate (path : String) : RunM Unit := do
  modifyS (fun st => { st with stack := st.stack ++ [path] })
  addVisitedM path
  modifyS (fun st => { st with hcursor := setA st.hcursor path 0 })

/-- Translation of mountComponent. -/
def mountComponentM (cenv : CompEnv) (recF : RecFn) (parentDom : Nat)
    (node : VNode) (path : String) : RunM (Option Instance) :=
  compEnterMount path >>= fun _ =>
  withPopFinally (do
    let body :=
      match node.ty with
      | NType.comp id _ => cenv id node.props node.children
      | _ => CompBody.ret none
    let childNode ← runBody body
    match childNode with
    | some c =>
      if ¬ isEmptyValueV c then do
        let ci ← recF parentDom none (some c) path
        pure (some (Instance.mk NodeKind.compK none node [ci] node.key path))
      else pure (some (Instance.mk NodeKind.compK none node [] node.key path))
    | none => pure (some (Instance.mk NodeKind.compK none node [] node.key path)))

/-- Translation of updateComponent (the instance argument arrives with node
and path already overwritten by the caller, as in the source). -/
def updateComponentM (cenv : CompEnv) (recF : RecFn) (dfuel : Nat)
    (parentDom : Nat) (inst0 : Instance) (node : VNode) (path : String) :
    RunM (Option Instance) :=
  compEnterUpdate path >>= fun _ =>
  withPopFinally (do
    let body :=
      match node.ty with
      | NType.comp id _ => cenv id node.props node.children
      | _ => CompBody.ret none
    let childNode ← runBody body
    let prevChild : Option Instance := (inst0.children.get? 0).getD none
    let nextChild ←
      match childNode with
      | some c =>
        if ¬ isEmptyValueV c then recF parentDom prevChild (some c) path
        else pure none
      | none => pure none
    (match nextChild, prevChild with
     | none, some pc => modifyS (fun st =>
         { st with doc := removeInstanceD dfuel st.doc parentDom (some pc) })
     | _, _ => pure ())
    pure (some (Instance.mk inst0.kind inst0.dom node [nextChild] inst0.key path)))

/-- Remove the superseded previous child at an index of the child loop. -/
def removePrevChildM (dfuel : Nat) (parentDom : Nat) (prevChild : Option Instance) :
    RunM Unit :=
  match prevChild with
  | some pc => modifyS (fun st =>
      { st with doc := removeInstanceD dfuel st.doc parentDom (some pc) })
  | none => pure ()

/-- The corrective insertion attempted after reconciling a child: when the
child was freshly mounted (no previous occupant) and a later old sibling
provides an anchor, the child is re-inserted before the anchor — but only
when its first host node is not already inside the parent. -/
def insertFreshChildM (dfuel parentDom : Nat)
    (childInstance prevChild : Option Instance) (nextSibling : Option Nat) :
    RunM Unit :=
  match childInstance, prevChild, nextSibling with
  | some ci, none, some anchor => do
    let st ← getS
    (match getFirstDomF dfuel (some ci) with
     | some fd =>
       if st.doc.parentOf fd ≠ some parentDom then
         modifyS (fun st2 =>
           { st2 with doc := insertInstanceD dfuel st2.doc parentDom (some ci) (some anchor) })
       else pure ()
     | none => pure ())
  | _, _, _ => pure ()

/-- Translation of one iteration of the reconcileChildren loop at index i. -/
def reconChildStep (recF : RecFn) (dfuel : Nat) (parentDom : Nat)
    (prevChildren : List (Option Instance)) (nextChildren : List VNode)
    (path : String) (i : Nat) : RunM (Option Instance) := do
  let prevChild : Option Instance := (prevChildren.get? i).getD none
  let nextChild : Option VNode := nextChildren.get? i
  match nextChild with
  | none => do
    removePrevChildM dfuel parentDom prevChild
    pure none
  | some nc =>
    if isEmptyValueV nc then do
      removePrevChildM dfuel parentDom prevChild
      pure none
    else do
      let nextSibling := getFirstDomFromChildrenF dfuel (prevChildren.drop (i + 1))
      let childPath := createChildPath path nc.key i nc.ty nextChildren
      let childInstance ← recF parentDom prevChild (some nc) childPath
      insertFreshChildM dfuel parentDom childInstance prevChild nextSibling
      pure childInstance

/-- The for-loop of reconcileChildren: cnt remaining iterations starting at
index i, collecting the new children list in order. -/
def reconChildrenGo (recF : RecFn) (dfuel : Nat) (parentDom : Nat)
    (prevChildren : List (Option Instance)) (nextChildren : List VNode)
    (path : String) : Nat → Nat → RunM (List (Option Instance))
  | 0, _ => pure []
  | cnt + 1, i => do
    let c ← reconChildStep recF dfuel parentDom prevChildren nextChildren path i
    let rest ← reconChildrenGo recF dfuel parentDom prevChildren nextChildren path cnt (i + 1)
    pure (c :: rest)

/-- Translation of reconcileChildren, returning the new children list that
the source assigns to instance.children. -/
def reconcileChildrenM (recF : RecFn) (dfuel : Nat) (parentDom : Nat)
    (inst0 : Instance) (node : VNode) (path : String) :
    RunM (List (Option Instance)) := do
  let prevChildren := inst0.children
  let nextChildren := node.children.filter (fun c => ¬ isEmptyValueV c)
  let maxLength := max prevChildren.length nextChildren.length
  reconChildrenGo recF dfuel parentDom prevChildren nextChildren path maxLength 0

/-- The children mounting loop of the host and fragment mount paths. -/
def mountKidsGo (recF : RecFn) (parentDom : Nat) (path : String)
    (children : List VNode) : List VNode → Nat → RunM (List (Option Instance))
  | [], _ => pure []
  | c :: rest, i => do
    let ci ←
      (if isEmptyValueV c then pure (none : Option Instance)
       else do
         let childPath := createChildPath path c.key i c.ty children
         recF parentDom none (some c) childPath)
    let others ← mountKidsGo recF parentDom path children rest (i + 1)
    pure (ci :: others)

/-- Translation of mount. -/
def mountM (cenv : CompEnv) (recF : RecFn) (dfuel : Nat) (parentDom : Nat)
    (node : VNode) (path : String) : RunM (Option Instance) :=
  match node.ty with
  | NType.text => do
    let s := nodeValueStrOf node.props
    let st ← getS
    let pr := st.doc.createText s
    modifyS (fun st2 => { st2 with doc := pr.1 })
    let inst := Instance.mk NodeKind.textK (some pr.2) node [] node.key path
    modifyS (fun st2 =>
      { st2 with doc := insertInstanceD dfuel st2.doc parentDom (some inst) none })
    pure (some inst)
  | NType.host tag => do
    let st ← getS
    let pr := st.doc.createElem tag
    modifyS (fun st2 => { st2 with doc := Doc.setDomPropsDoc pr.1 pr.2 node.props })
    let children := node.children.filter (fun c => ¬ isEmptyValueV c)
    let kids ← mountKidsGo recF pr.2 path children children 0
    let inst := Instance.mk NodeKind.hostK (some pr.2) node kids node.key path
    modifyS (fun st2 =>
      { st2 with doc := insertInstanceD dfuel st2.doc parentDom (some inst) none })
    pure (some inst)
  | NType.frag => do
    let children := node.children.filter (fun c => ¬ isEmptyValueV c)
    let kids ← mountKidsGo recF parentDom path children children 0
    pure (some (Instance.mk NodeKind.fragK none node kids node.key path))
  | NType.comp _ _ => mountComponentM cenv recF parentDom node path
  | NType.exotic _ => pure none

/-- Translation of reconcile, bounded by fuel: every re-entry (children,
component child) runs at one unit less; exhausted fuel models JS stack
exhaustion and throws. -/
def reconcileM (cenv : CompEnv) : Nat → Nat → Option Instance → Option VNode →
    String → RunM (Option Instance)
  | 0, _, _, _, _ => throwE RErr.outOfFuel
  | fuel + 1, parentDom, instOpt, nodeOpt, path =>
    match nodeOpt with
    | none => do
      (match instOpt with
       | some i => modifyS (fun st =>
           { st with doc := removeInstanceD fuel st.doc parentDom (some i) })
       | none => pure ())
      pure none
    | some node =>
      match instOpt with
      | none => mountM cenv (reconcileM cenv fuel) fuel parentDom node path
      | some inst0 =>
        if inst0.node.ty ≠ node.ty ∨ inst0.key ≠ node.key then do
          modifyS (fun st =>
            { st with doc := removeInstanceD fuel st.doc parentDom (some inst0) })
          mountM cenv (reconcileM cenv fuel) fuel parentDom node path
        else
          let inst1 := Instance.mk inst0.kind inst0.dom node inst0.children inst0.key path
          match node.ty with
          | NType.text => do
            let newValue := nodeValueStrOf node.props
            (match inst1.dom with
             | some d => modifyS (fun st =>
                 match st.doc.getNode d with
                 | some (DNode.textN old) =>
                   if old ≠ newValue then
                     { st with doc := st.doc.setNode d (DNode.textN newValue) }
                   else st
                 | _ => st)
             | none => pure ())
            pure (some inst1)
          | NType.host _ => do
            (match inst1.dom with
             | some d => modifyS (fun st =>
                 { st with doc := st.doc.updateDomPropsDoc d inst1.node.props node.props })
             | none => pure ())
            let newKids ← reconcileChildrenM (reconcileM cenv fuel) fuel
              (inst1.dom.getD 0) inst1 node path
            pure (some (Instance.mk inst1.kind inst1.dom inst1.node newKids
              inst1.key inst1.path))
          | NType.frag => do
            let newKids ← reconcileChildrenM (reconcileM cenv fuel) fuel
              parentDom inst1 node path
            pure (some (Instance.mk inst1.kind inst1.dom inst1.node newKids
              inst1.key inst1.path))
          | NType.comp _ _ =>
            updateComponentM cenv (reconcileM cenv fuel) fuel parentDom inst1 node path
          | NType.exotic _ => pure (some inst1)

/-- The synchronous part of the effect-queue drain at the global level: each
cleanup entry is invoked on the spot (its own user side effects are covered
by the standalone drain model below), each effect entry is handed to
enqueue, that is, deferred as a microtask in queue order. -/
def flushEffectsDrainG : List QEntry → List GTask
  | [] => []
  | QEntry.cleanupE _ _ _ :: rest => flushEffectsDrainG rest
  | QEntry.effectE p c f :: rest => GTask.effectT p c f :: flushEffectsDrainG rest

/-- Modelled from the spec: the withEnqueue wrapper around the effect-queue
drain — while pending further calls are absorbed, otherwise the pending
flag is set and the drain is scheduled to run asynchronously. -/
def flushEffectsCallM : RunM Unit := do
  let st ← getS
  if st.flushPending then pure ()
  else modifyS (fun st2 =>
    { st2 with flushPending := true, micro := st2.micro ++ [GTask.flushT] })

/-- Translation of render: clear the visited set and the call stack,
reconcile the root when both container and root node are bound, store the
new root instance, garbage-collect unused hooks, then request the
asynchronous effect flush. -/
def renderM (cenv : CompEnv) (fuel : Nat) : RunM Unit := do
  modifyS (fun st => { st with visited := [], stack := [] })
  let st ← getS
  (match st.containerId, st.rootNode with
   | some container, some node => do
     let inst ← reconcileM cenv fuel container st.rootInstance (some node) ""
     modifyS (fun st2 => { st2 with rootInstance := inst })
   | _, _ => pure ())
  cleanupUnusedHooksM
  flushEffectsCallM

/-- Translation of setup: validate the container, reject a null root node,
remove a previously committed instance tree, clear the container, reset the
root binding, clear the hook store, then perform one synchronous render. -/
def setupM (cenv : CompEnv) (fuel : Nat) (rootNode : Option VNode)
    (container : Option Nat) : RunM Unit := do
  match container with
  | none => throwE RErr.missingContainer
  | some c =>
    match rootNode with
    | none => throwE RErr.nullRootNode
    | some node => do
      let st ← getS
      (match st.rootInstance with
       | some inst => modifyS (fun st2 =>
           { st2 with doc := removeInstanceD fuel st2.doc c (some inst) })
       | none => pure ())
      modifyS (fun st2 =>
        { st2 with doc := { st2.doc with kids := setA st2.doc.kids c [] } })
      modifyS (fun st2 =>
        { st2 with containerId := some c, rootNode := some node, rootInstance := none })
      modifyS (fun st2 =>
        { st2 with hstate := [], hcursor := [], visited := [], stack := [] })
      renderM cenv fuel

/-- The environment interpreting effect bodies at the global level: the
cleanup callback reference an effect body returns, if any. -/
def EffEnv : Type := Nat → Option Nat

/-- The wrapper queued by useEffect for an effect entry: run the effect
body and store a returned cleanup into the slot it belongs to. -/
def runEffectWrapperM (eenv : EffEnv) (path : String) (cursor : Nat)
    (eid : Nat) : RunM Unit :=
  match eenv eid with
  | some c => modifyS (fun st =>
      match lookupA st.hstate path with
      | some hooks =>
        match hooks.get? cursor with
        | some (HookSlot.effectSlot r) =>
          let hooks1 := hooks.set cursor (HookSlot.effectSlot { r with cleanup := some c })
          { st with hstate := setA st.hstate path hooks1 }
        | _ => st
      | none => st)
  | none => pure ()

/-- Run one deferred task: the coalesced render (clearing its pending flag
before invoking render), the coalesced effect-queue drain (clearing its
flag, consuming the queue and deferring the effect bodies), or a deferred
effect body. -/
def runTaskM (cenv : CompEnv) (eenv : EffEnv) (fuel : Nat) : GTask → RunM Unit
  | GTask.renderT => do
    modifyS (fun st => { st with renderPending := false })
    renderM cenv fuel
  | GTask.flushT =>
    modifyS (fun st =>
      let micro1 := st.micro ++ flushEffectsDrainG st.effectQ
      { st with effectQ := [], micro := micro1, flushPending := false })
  | GTask.effectT p c f => runEffectWrapperM eenv p c f

/-- Pop and run the next microtask, if any. -/
def runNextTaskM (cenv : CompEnv) (eenv : EffEnv) (fuel : Nat) : RunM Unit := do
  let st ← getS
  match st.micro with
  | [] => pure ()
  | t :: rest => do
    modifyS (fun st2 => { st2 with micro := rest })
    runTaskM cenv eenv fuel t

/-- The arena holding only the empty render container, with id 0. -/
def initDoc : Doc :=
  { nodes := [(0, DNode.elemN "root" ElemProps.empty)], kids := [(0, [])], nextId := 1 }

/-- The pristine global context. -/
def initState : GState :=
  { doc := initDoc, containerId := none, rootNode := none, rootInstance := none,
    hstate := [], hcursor := [], visited := [], stack := [], effectQ := [],
    micro := [], renderPending := false, flushPending := false, setterLog := [] }

/-- An observable event of the effect-flush machinery: the invocation of a
cleanup callback or of an effect body. -/
inductive FEvent where
  | cleanupRun (fnId : Nat)
  | effectRun (fnId : Nat)
deriving DecidableEq, Repr

/-- Callback environment of the standalone drain model: the entries a
callback pushes onto the effect queue when it is invoked (the only callback
side effect the flush loop itself can observe). -/
def CbEnv : Type := Nat → List QEntry

/-- The state observed by the drain model: the effect queue, the trace of
callback invocations in execution order, and the effect bodies handed to
enqueue (deferred microtasks) in scheduling order. -/
structure FState where
  queue : List QEntry
  trace : List FEvent
  deferred : List Nat
deriving DecidableEq, Repr

/-- Translation of the while loop inside flushEffects: dequeue from the
front until the queue is empty; a cleanup entry is invoked on the spot (its
pushes land at the back of the same queue); an effect entry is handed to
enqueue, that is, deferred.  Fuel bounds the loop since invoked cleanups can
push new entries; none reports exhausted fuel. -/
def drainGo (env : CbEnv) : Nat → FState → Option FState
  | 0, st => match st.queue with | [] => some st | _ => none
  | fuel + 1, st =>
    match st.queue with
    | [] => some st
    | QEntry.cleanupE _ _ f :: rest =>
      drainGo env fuel
        { queue := rest ++ env f, trace := st.trace ++ [FEvent.cleanupRun f],
          deferred := st.deferred }
    | QEntry.effectE _ _ f :: rest =>
      drainGo env fuel
        { queue := rest, trace := st.trace, deferred := st.deferred ++ [f] }

/-- Modelled from the spec: enqueue schedules a function to run once,
asynchronously; the deferred effect bodies therefore run after the
synchronous drain returns, in FIFO scheduling order.  What an effect body
pushes lands on the effect queue, which is no longer being drained. -/
def runDeferredGo (env : CbEnv) : List Nat → FState → FState
  | [], st => st
  | f :: rest, st =>
    runDeferredGo env rest
      { queue := st.queue ++ env f, trace := st.trace ++ [FEvent.effectRun f],
        deferred := st.deferred }

/-- One complete flush of a queue: the synchronous drain, then the deferred
effect bodies. -/
def flushOnce (env : CbEnv) (fuel : Nat) (q : List QEntry) : Option FState :=
  match drainGo env fuel { queue := q, trace := [], deferred := [] } with
  | some st =>
    some (runDeferredGo env st.deferred
      { queue := st.queue, trace := st.trace, deferred := [] })
  | none => none

/-- The cleanup callback references of a queue, in order. -/
def cleanupIdsOf (q : List QEntry) : List Nat :=
  q.filterMap (fun e => match e with
    | QEntry.cleanupE _ _ f => some f
    | QEntry.effectE _ _ _ => none)

/-- The effect body references of a queue, in order. -/
def effectIdsOf (q : List QEntry) : List Nat :=
  q.filterMap (fun e => match e with
    | QEntry.cleanupE _ _ _ => none
    | QEntry.effectE _ _ f => some f)

/-- Whether useEffect decides to run: no previous effect record at the
cursor, no deps given, or deps not shallow-equal to the recorded ones. -/
def effectShouldRun (hooks : List HookSlot) (cursor : Nat)
    (deps : Option (List JSVal)) : Bool :=
  match hooks.get? cursor with
  | some (HookSlot.effectSlot r) =>
    match deps with
    | none => true
    | some d => ¬ shallowEqualsDeps r.deps d
  | _ => true

/-- The cleanup entries useEffect pushes ahead of the effect entry: the
stored cleanup of the previous record at the cursor, when there is one. -/
def prevCleanupEntries (p : String) (cursor : Nat) (hooks : List HookSlot) :
    List QEntry :=
  match hooks.get? cursor with
  | some (HookSlot.effectSlot r) =>
    match r.cleanup with
    | some c => [QEntry.cleanupE p cursor c]
    | none => []
  | _ => []

/-- The value a setter call resolves to: a literal, or the updater applied
to the captured previous value. -/
def setArgValue (s : Setter) (arg : SetArg) : JSVal :=
  match arg with
  | SetArg.val v => v
  | SetArg.upd f => f s.captured

/-- A computation preserves the component call stack. -/
def PreservesStack {α : Type} (m : RunM α) : Prop :=
  ∀ st : GState, ((m st).2).stack = st.stack

/-- A reconcile callback preserves the component call stack at every
argument. -/
def RecPreserves (recF : RecFn) : Prop :=
  ∀ p i n pth, PreservesStack (recF p i n pth)

/-! Concrete scenario material shared by the claim theorems. -/

/-- A text vnode as createElement builds it. -/
def textV (s : String) : VNode :=
  VNode.mk NType.text none [("nodeValue", JSVal.vstr s)] []

/-- A host vnode. -/
def hostV (tag : String) (ps : List (String × JSVal)) (cs : List VNode) : VNode :=
  VNode.mk (NType.host tag) none ps cs

/-- A component environment whose components all return null. -/
def cenvNone : CompEnv := fun _ _ _ => CompBody.ret none

/-- An effect environment whose effect bodies return no cleanup. -/
def eenvNone : EffEnv := fun _ => none

/-- Claim C1 scenario, first pass: a div with unkeyed text children A, B, C
committed into the container. -/
def c1Start : GState :=
  (runR (setupM cenvNone 30
    (some (hostV "div" [] [textV "A", textV "B", textV "C"])) (some 0)) initState).2

/-- Claim C1 scenario, second pass: the same div re-rendered with children
X, A, B, C. -/
def c1After : GState :=
  (runR (reconcileM cenvNone 30 0 c1Start.rootInstance
    (some (hostV "div" [] [textV "X", textV "A", textV "B", textV "C"])) "") c1Start).2

/-- An exotic-typed vnode (a type value the mount switch does not
recognize; mounting it returns null, leaving a positional hole). -/
def exoV : VNode := VNode.mk (NType.exotic 9) none [] []

/-- Claim C2 scenario, first pass: a div whose children are an exotic vnode
(mounted to a hole) followed by a span; only the span realizes a host
node. -/
def c2Start : GState :=
  (runR (setupM cenvNone 30
    (some (hostV "div" [] [exoV, hostV "span" [] [textV "S"]])) (some 0)) initState).2

/-- Claim C2 scenario, second pass: the exotic child replaced by a p
element, a fresh mid-list mount with a surviving later sibling. -/
def c2After : GState :=
  (runR (reconcileM cenvNone 30 0 c2Start.rootInstance
    (some (hostV "div" [] [hostV "p" [] [textV "P"], hostV "span" [] [textV "S"]])) "") c2Start).2

/-- Claim C3 scenario, first pass: a div carrying a generic prop. -/
def c3Start : GState :=
  (runR (setupM cenvNone 30
    (some (hostV "div" [("title", JSVal.vstr "a")] [])) (some 0)) initState).2

/-- Claim C3 scenario, second pass: the same div re-rendered with empty
props. -/
def c3After : GState :=
  (runR (reconcileM cenvNone 30 0 c3Start.rootInstance
    (some (hostV "div" [] [])) "") c3Start).2

/-- The child component of the hook-GC scenario. -/
def childCV : VNode := VNode.mk (NType.comp 2 "Child") none [] []

/-- The identity path the child component receives in the scenario. -/
def childPathS : String := ".i0.cChild_0"

/-- Component environment of the hook-GC scenario: component 1 holds a
boolean state and renders a div containing component 2 while it is true;
component 2 holds a numeric state initialized to 7. -/
def cenvGC : CompEnv := fun id _ _ =>
  if id = 1 then
    CompBody.useStateB (StateInit.val (JSVal.vbool true)) (fun v =>
      if jsTruthy v then CompBody.ret (some (hostV "div" [] [childCV]))
      else CompBody.ret (some (hostV "div" [] [])))
  else
    CompBody.useStateB (StateInit.val (JSVal.vnum 7)) (fun v =>
      CompBody.ret (some (textV (jsToString v))))

def rootGC : VNode := VNode.mk (NType.comp 1 "Parent") none [] []

/-- Hook-GC scenario after setup: both components mounted and their slots
populated. -/
def c6a : GState :=
  (runR (setupM cenvGC 30 (some rootGC) (some 0)) initState).2

/-- The child state is changed to 99 (so that a later remount observably
starts fresh rather than keeping this value). -/
def c6b : GState :=
  (runR (setStateM { path := childPathS, cursor := 0, captured := JSVal.vnum 7 }
    (SetArg.val (JSVal.vnum 99))) c6a).2

/-- The parent state is set to false: the child will stop being rendered. -/
def c6c : GState :=
  (runR (setStateM { path := "", cursor := 0, captured := JSVal.vbool true }
    (SetArg.val (JSVal.vbool false))) c6b).2

/-- The scheduled flush and render tasks run: the pass does not enter the
child, so its slots are garbage-collected. -/
def c6d : GState :=
  (runR (do
    runNextTaskM cenvGC eenvNone 30
    runNextTaskM cenvGC eenvNone 30) c6c).2

/-- The parent state is set back to true (using the setter captured during
the latest pass). -/
def c6e : GState :=
  (runR (setStateM { path := "", cursor := 0, captured := JSVal.vbool false }
    (SetArg.val (JSVal.vbool true))) c6d).2

/-- The render runs again: the child remounts at the same identity path. -/
def c6f : GState :=
  (runR (do
    runNextTaskM cenvGC eenvNone 30
    runNextTaskM cenvGC eenvNone 30) c6e).2

/-- Component environment of the stale-setter scenario: one component with
a numeric state initialized to 1. -/
def cenvSS : CompEnv := fun _ _ _ =>
  CompBody.useStateB (StateInit.val (JSVal.vnum 1)) (fun v =>
    CompBody.ret (some (textV (jsToString v))))

def rootSS : VNode := VNode.mk (NType.comp 1 "X") none [] []

/-- Stale-setter scenario after setup; the logged setter captured the value
1. -/
def c7a : GState :=
  (runR (setupM cenvSS 30 (some rootSS) (some 0)) initState).2

/-- The setter handed out by the first pass. -/
def c7setter : Setter := { path := "", cursor := 0, captured := JSVal.vnum 1 }

/-- The setter is called with 2: the slot is written and a render pass is
scheduled. -/
def c7b : GState :=
  (runR (setStateM c7setter (SetArg.val (JSVal.vnum 2))) c7a).2

/-- The scheduled flush and render tasks run; the pending flag clears. -/
def c7c : GState :=
  (runR (do
    runNextTaskM cenvSS eenvNone 30
    runNextTaskM cenvSS eenvNone 30) c7b).2

/-- The stale setter is called again with 2 — the value the slot already
holds. -/
def c7d : GState :=
  (runR (setStateM c7setter (SetArg.val (JSVal.vnum 2))) c7c).2

/-- Callback environment of the C5 counterexample: effect body 7 pushes a
cleanup entry onto the effect queue when it runs. -/
def cbEnvA : CbEnv := fun id => if id = 7 then [QEntry.cleanupE "p" 0 8] else []

/-- Callback environment of the C5 reentrancy example: cleanup 1 pushes
cleanup 3 onto the queue when it runs. -/
def cbEnvB : CbEnv := fun id => if id = 1 then [QEntry.cleanupE "p" 0 3] else []

/-- The no-reentrancy callback environment. -/
def cbEnv0 : CbEnv := fun _ => []

/-- A component environment whose component 1 throws. -/
def cenvThrow : CompEnv := fun id _ _ =>
  if id = 1 then CompBody.throwB "boom" else CompBody.ret none

def rootThrow : VNode := VNode.mk (NType.comp 1 "T") none [] []

/-- The slot array as it stands after useEffect writes a fresh record. -/
def writeEffectSlot (hooks : List HookSlot) (cursor : Nat)
    (deps : Option (List JSVal)) (eid : Nat) : List HookSlot :=
  if hooks.length ≤ cursor then
    hooks ++ [HookSlot.effectSlot { deps := deps, cleanup := none, effectId := eid }]
  else hooks.set cursor (HookSlot.effectSlot { deps := deps, cleanup := none, effectId := eid })

/-- A context with one live component at path p holding no slots yet (the
shape mountComponent produces right before the first hook call). -/
def c4W : GState :=
  { initState with stack := ["p"], hstate := [("p", [])], hcursor := [("p", 0)] }

/-- A degenerate reconcile callback used to exercise the child loop in
witnesses. -/
def recNone : RecFn := fun _ _ _ _ => pureR none



/-! Symbolic execution lemmas for RunM programs. -/

theorem bind_apply {α β : Type} (m : RunM α) (f : α → RunM β) (st : GState) :
    (m >>= f) st =
      match m st with
      | (Except.ok a, s1) => f a s1
      | (Except.error e, s1) => (Except.error e, s1) := rfl

theorem pure_apply {α : Type} (a : α) (st : GState) :
    (pure a : RunM α) st = (Except.ok a, st) := rfl

theorem modifyS_apply (f : GState → GState) (st : GState) :
    modifyS f st = (Except.ok (), f st) := rfl

theorem getS_apply (st : GState) : getS st = (Except.ok st, st) := rfl

theorem throwE_apply {α : Type} (e : RErr) (st : GState) :
    (throwE (α := α) e) st = (Except.error e, st) := rfl

/-! Association-list lemmas. -/

theorem lookupA_setA_self {κ α : Type} [DecidableEq κ] (l : List (κ × α)) (k : κ) (v : α) :
    lookupA (setA l k v) k = some v := by
  induction l with
  | nil => simp [setA, lookupA]
  | cons h t ih =>
    obtain ⟨a, b⟩ := h
    by_cases hk : a = k
    · simp [setA, hk, lookupA]
    · simp [setA, hk, lookupA, ih]

theorem lookupA_setA_ne {κ α : Type} [DecidableEq κ] (l : List (κ × α)) (k q : κ) (v : α)
    (h : q ≠ k) : lookupA (setA l k v) q = lookupA l q := by
  induction l with
  | nil => simp [setA, lookupA, h, Ne.symm h]
  | cons hd t ih =>
    obtain ⟨a, b⟩ := hd
    by_cases hk : a = k
    · subst hk
      simp [setA, lookupA, h, Ne.symm h]
    · simp [setA, hk, lookupA, ih]

theorem lookupA_removeA_self {κ α : Type} [DecidableEq κ] (l : List (κ × α)) (k : κ) :
    lookupA (removeA l k) k = none := by
  induction l with
  | nil => simp [removeA, lookupA]
  | cons hd t ih =>
    obtain ⟨a, b⟩ := hd
    by_cases hk : a = k
    · simp [removeA, hk, ih]
    · simp [removeA, hk, lookupA, ih]

theorem lookupA_removeA_ne {κ α : Type} [DecidableEq κ] (l : List (κ × α)) (k q : κ)
    (h : q ≠ k) : lookupA (removeA l k) q = lookupA l q := by
  induction l with
  | nil => simp [removeA, lookupA]
  | cons hd t ih =>
    obtain ⟨a, b⟩ := hd
    by_cases hk : a = k
    · subst hk
      simp [removeA, lookupA, Ne.symm h, ih]
    · simp [removeA, hk, lookupA, ih]

/-! The component call stack is preserved by every reconciler computation. -/

theorem stack_bind {α β : Type} (m : RunM α) (f : α → RunM β)
    (hm : PreservesStack m) (hf : ∀ a, PreservesStack (f a)) :
    PreservesStack (m >>= f) := by
  intro st
  have h1 := hm st
  show (bindR m f st).2.stack = st.stack
  unfold bindR
  rcases hres : m st with ⟨r, s1⟩
  rw [hres] at h1
  cases r with
  | ok a =>
    have h2 := hf a s1
    simpa [h2] using h1
  | error e => simpa using h1

theorem stack_pure {α : Type} (a : α) : PreservesStack (pure a : RunM α) :=
  fun _ => rfl

theorem stack_getS : PreservesStack getS := fun _ => rfl

theorem stack_modifyS (f : GState → GState) (h : ∀ st, (f st).stack = st.stack) :
    PreservesStack (modifyS f) := fun st => h st

theorem stack_throwE {α : Type} (e : RErr) : PreservesStack (throwE (α := α) e) :=
  fun _ => rfl

theorem stack_currentPathM : PreservesStack currentPathM := by
  intro st
  unfold currentPathM
  cases h : st.stack.getLast? <;> simp

theorem stack_writeHooksBack (p : String) (hooks : List HookSlot) :
    PreservesStack (writeHooksBack p hooks) := by
  apply stack_modifyS
  intro st
  by_cases h : hasA st.hstate p <;> simp [h]

theorem stack_enqueueRenderM : PreservesStack enqueueRenderM := by
  unfold enqueueRenderM
  apply stack_bind _ _ stack_getS
  intro a
  dsimp only
  by_cases h : a.renderPending = true
  · simp only [if_pos h]
    exact stack_pure ()
  · simp only [if_neg h]
    intro st
    rfl

theorem stack_useStateM (init : StateInit) : PreservesStack (useStateM init) := by
  unfold useStateM
  apply stack_bind _ _ stack_currentPathM
  intro path
  apply stack_bind _ _ stack_getS
  intro st0
  dsimp only
  apply stack_bind _ _ (stack_writeHooksBack _ _)
  intro _
  apply stack_bind
  · apply stack_modifyS; intro st; rfl
  intro _
  apply stack_bind
  · apply stack_modifyS; intro st; rfl
  intro _
  exact stack_pure _

theorem stack_useEffectM (eid : Nat) (deps : Option (List JSVal)) :
    PreservesStack (useEffectM eid deps) := by
  intro st
  unfold useEffectM
  simp only [bind_apply, getS_apply, modifyS_apply, pure_apply, currentPathM,
    writeHooksBack]
  cases h : st.stack.getLast? with
  | none => simp
  | some p =>
    simp only []
    split <;> (repeat' split) <;>
      (try simp only [bind_apply, modifyS_apply, pure_apply, getS_apply]) <;>
      (repeat' split) <;> (first | rfl | simp)

theorem stack_runBody (b : CompBody) : PreservesStack (runBody b) := by
  induction b with
  | ret v => exact stack_pure _
  | throwB msg => exact stack_throwE _
  | useStateB init k ih =>
    show PreservesStack (useStateM init >>= _)
    apply stack_bind _ _ (stack_useStateM init)
    intro a
    exact ih a.1
  | useEffectB eid deps k ih =>
    show PreservesStack (useEffectM eid deps >>= _)
    apply stack_bind _ _ (stack_useEffectM eid deps)
    intro _
    exact ih

theorem stack_addVisitedM (p : String) : PreservesStack (addVisitedM p) := by
  apply stack_modifyS
  intro st
  by_cases h : p ∈ st.visited <;> simp [h]

theorem compEnterMount_ok (path : String) (st : GState) :
    (compEnterMount path st).1 = Except.ok () := by
  unfold compEnterMount addVisitedM
  simp only [bind_apply, modifyS_apply]

theorem compEnterMount_stack (path : String) (st : GState) :
    ((compEnterMount path st).2).stack = st.stack ++ [path] := by
  unfold compEnterMount addVisitedM
  simp only [bind_apply, modifyS_apply]
  (repeat' split) <;> rfl

theorem compEnterUpdate_ok (path : String) (st : GState) :
    (compEnterUpdate path st).1 = Except.ok () := by
  unfold compEnterUpdate addVisitedM
  simp only [bind_apply, modifyS_apply]

theorem compEnterUpdate_stack (path : String) (st : GState) :
    ((compEnterUpdate path st).2).stack = st.stack ++ [path] := by
  unfold compEnterUpdate addVisitedM
  simp only [bind_apply, modifyS_apply]
  (repeat' split) <;> rfl

theorem stack_enter_withPop {α : Type} (pre : RunM Unit) (path : String)
    (body : RunM α)
    (hok : ∀ st, (pre st).1 = Except.ok ())
    (hstk : ∀ st, ((pre st).2).stack = st.stack ++ [path])
    (hbody : PreservesStack body) :
    PreservesStack (pre >>= fun _ => withPopFinally body) := by
  intro st
  have h1 := hok st
  have h2 := hstk st
  show (bindR pre _ st).2.stack = st.stack
  unfold bindR
  rcases hres : pre st with ⟨r, s1⟩
  rw [hres] at h1 h2
  dsimp at h1 h2
  cases r with
  | error e => exact absurd h1 (by simp)
  | ok a =>
    show ((withPopFinally body) s1).2.stack = st.stack
    unfold withPopFinally
    dsimp
    rw [hbody s1, h2, List.dropLast_concat]


theorem stack_removePrevChildM (dfuel parentDom : Nat) (prevChild : Option Instance) :
    PreservesStack (removePrevChildM dfuel parentDom prevChild) := by
  unfold removePrevChildM
  cases prevChild with
  | none => exact stack_pure ()
  | some pc =>
    apply stack_modifyS
    intro st
    rfl

theorem stack_insertFreshChildM (dfuel parentDom : Nat)
    (childInstance prevChild : Option Instance) (nextSibling : Option Nat) :
    PreservesStack (insertFreshChildM dfuel parentDom childInstance prevChild nextSibling) := by
  unfold insertFreshChildM
  split
  · apply stack_bind _ _ stack_getS
    intro st0
    dsimp only
    split
    · split
      · apply stack_modifyS
        intro st
        rfl
      · exact stack_pure _
    · exact stack_pure _
  · exact stack_pure _

theorem stack_reconChildStep (recF : RecFn) (dfuel parentDom : Nat)
    (prevChildren : List (Option Instance)) (nextChildren : List VNode)
    (path : String) (i : Nat) (hrec : RecPreserves recF) :
    PreservesStack (reconChildStep recF dfuel parentDom prevChildren nextChildren path i) := by
  unfold reconChildStep
  dsimp only
  split
  · apply stack_bind _ _ (stack_removePrevChildM _ _ _)
    intro _
    exact stack_pure _
  · split
    · apply stack_bind _ _ (stack_removePrevChildM _ _ _)
      intro _
      exact stack_pure _
    · apply stack_bind _ _ (hrec _ _ _ _)
      intro childInstance
      dsimp only
      apply stack_bind _ _ (stack_insertFreshChildM _ _ _ _ _)
      intro _
      exact stack_pure _

theorem stack_reconChildrenGo (recF : RecFn) (dfuel parentDom : Nat)
    (prevChildren : List (Option Instance)) (nextChildren : List VNode)
    (path : String) (hrec : RecPreserves recF) :
    ∀ cnt i, PreservesStack (reconChildrenGo recF dfuel parentDom prevChildren nextChildren path cnt i) := by
  intro cnt
  induction cnt with
  | zero =>
    intro i
    exact stack_pure _
  | succ n ih =>
    intro i
    unfold reconChildrenGo
    apply stack_bind _ _ (stack_reconChildStep _ _ _ _ _ _ _ hrec)
    intro c
    apply stack_bind _ _ (ih (i + 1))
    intro rest
    exact stack_pure _

theorem stack_reconcileChildrenM (recF : RecFn) (dfuel parentDom : Nat)
    (inst0 : Instance) (node : VNode) (path : String) (hrec : RecPreserves recF) :
    PreservesStack (reconcileChildrenM recF dfuel parentDom inst0 node path) := by
  unfold reconcileChildrenM
  dsimp only
  exact stack_reconChildrenGo _ _ _ _ _ _ hrec _ _

theorem stack_mountKidsGo (recF : RecFn) (parentDom : Nat) (path : String)
    (children : List VNode) (hrec : RecPreserves recF) :
    ∀ l i, PreservesStack (mountKidsGo recF parentDom path children l i) := by
  intro l
  induction l with
  | nil =>
    intro i
    exact stack_pure _
  | cons c rest ih =>
    intro i
    unfold mountKidsGo
    apply stack_bind
    · split
      · exact stack_pure _
      · dsimp only
        exact hrec _ _ _ _
    intro ci
    apply stack_bind _ _ (ih (i + 1))
    intro others
    exact stack_pure _

theorem stack_mountComponentM (cenv : CompEnv) (recF : RecFn) (parentDom : Nat)
    (node : VNode) (path : String) (hrec : RecPreserves recF) :
    PreservesStack (mountComponentM cenv recF parentDom node path) := by
  unfold mountComponentM
  apply stack_enter_withPop _ path _ (compEnterMount_ok path) (compEnterMount_stack path)
  apply stack_bind _ _ (stack_runBody _)
  intro childNode
  dsimp only
  split
  · split
    · apply stack_bind _ _ (hrec _ _ _ _)
      intro ci
      exact stack_pure _
    · exact stack_pure _
  · exact stack_pure _

theorem stack_updateComponentM (cenv : CompEnv) (recF : RecFn) (dfuel parentDom : Nat)
    (inst0 : Instance) (node : VNode) (path : String) (hrec : RecPreserves recF) :
    PreservesStack (updateComponentM cenv recF dfuel parentDom inst0 node path) := by
  unfold updateComponentM
  apply stack_enter_withPop _ path _ (compEnterUpdate_ok path) (compEnterUpdate_stack path)
  apply stack_bind _ _ (stack_runBody _)
  intro childNode
  dsimp only
  split
  · split
    · apply stack_bind _ _ (hrec _ _ _ _)
      intro y
      apply stack_bind
      · split
        · apply stack_modifyS
          intro st
          rfl
        · exact stack_pure _
      intro _
      exact stack_pure _
    · apply stack_bind _ _ (stack_pure _)
      intro y
      apply stack_bind
      · split
        · apply stack_modifyS
          intro st
          rfl
        · exact stack_pure _
      intro _
      exact stack_pure _
  · apply stack_bind _ _ (stack_pure _)
    intro y
    apply stack_bind
    · split
      · apply stack_modifyS
        intro st
        rfl
      · exact stack_pure _
    intro _
    exact stack_pure _

theorem stack_mountM (cenv : CompEnv) (recF : RecFn) (dfuel parentDom : Nat)
    (node : VNode) (path : String) (hrec : RecPreserves recF) :
    PreservesStack (mountM cenv recF dfuel parentDom node path) := by
  unfold mountM
  split
  · intro st
    simp only [bind_apply, getS_apply, modifyS_apply, pure_apply]
  · apply stack_bind _ _ stack_getS
    intro st0
    dsimp only
    apply stack_bind
    · apply stack_modifyS; intro st; rfl
    intro _
    apply stack_bind _ _ (stack_mountKidsGo _ _ _ _ hrec _ _)
    intro kids
    apply stack_bind
    · apply stack_modifyS; intro st; rfl
    intro _
    exact stack_pure _
  · apply stack_bind _ _ (stack_mountKidsGo _ _ _ _ hrec _ _)
    intro kids
    exact stack_pure _
  · exact stack_mountComponentM _ _ _ _ _ hrec
  · exact stack_pure _

theorem stack_reconcileM (cenv : CompEnv) :
    ∀ fuel parentDom instOpt nodeOpt path,
      PreservesStack (reconcileM cenv fuel parentDom instOpt nodeOpt path) := by
  intro fuel
  induction fuel with
  | zero =>
    intro parentDom instOpt nodeOpt path
    exact stack_throwE _
  | succ n ih =>
    intro parentDom instOpt nodeOpt path
    have hrec : RecPreserves (reconcileM cenv n) := fun a b c d => ih a b c d
    unfold reconcileM
    split
    · apply stack_bind
      · split
        · apply stack_modifyS; intro st; rfl
        · exact stack_pure _
      intro _
      exact stack_pure _
    · split
      · exact stack_mountM _ _ _ _ _ _ hrec
      · split
        · apply stack_bind
          · apply stack_modifyS; intro st; rfl
          intro _
          exact stack_mountM _ _ _ _ _ _ hrec
        · split
          · apply stack_bind
            · split
              · apply stack_modifyS
                intro st
                (repeat' split) <;> rfl
              · exact stack_pure _
            intro _
            exact stack_pure _
          · apply stack_bind
            · split
              · apply stack_modifyS; intro st; rfl
              · exact stack_pure _
            intro _
            apply stack_bind _ _ (stack_reconcileChildrenM _ _ _ _ _ _ hrec)
            intro newKids
            exact stack_pure _
          · apply stack_bind _ _ (stack_reconcileChildrenM _ _ _ _ _ _ hrec)
            intro newKids
            exact stack_pure _
          · exact stack_updateComponentM _ _ _ _ _ _ _ hrec
          · exact stack_pure _

/-- Claim C8: calling useState or useEffect while no component invocation is
active (empty component call stack) throws the hook-outside-component error
rather than silently doing nothing, and the context at the moment of the
throw is exactly the context before the call: no hook slot, cursor, or
effect-queue entry has been created or modified. -/
theorem claimC8 (init : StateInit) (eid : Nat) (deps : Option (List JSVal))
    (st : GState) (h : st.stack = []) :
    runR (useStateM init) st = (Except.error RErr.hookOutsideComponent, st) ∧
    runR (useEffectM eid deps) st = (Except.error RErr.hookOutsideComponent, st) := by
  constructor
  · show bindR currentPathM _ st = _
    simp [bindR, currentPathM, h]
  · show bindR currentPathM _ st = _
    simp [bindR, currentPathM, h]

/-- Witness for claim C8 at the pristine context. -/
theorem claimC8_witness :
    runR (useStateM (StateInit.val (JSVal.vnum 1))) initState =
      (Except.error RErr.hookOutsideComponent, initState) ∧
    runR (useEffectM 5 none) initState =
      (Except.error RErr.hookOutsideComponent, initState) :=
  claimC8 (StateInit.val (JSVal.vnum 1)) 5 none initState rfl

/-- Claim C10: reconciling a component vnode (mount when no previous
instance is given, update otherwise) leaves the component call stack exactly
as it was, whether the component function returns normally or throws — the
path pushed on entry is always popped, so the currently-active-component
lookup stays consistent. -/
theorem claimC10 (cenv : CompEnv) (fuel parentDom : Nat)
    (instOpt : Option Instance) (node : VNode) (path : String) (st : GState)
    (cid : Nat) (cname : String) (hty : node.ty = NType.comp cid cname) :
    ((reconcileM cenv fuel parentDom instOpt (some node) path st).2).stack = st.stack :=
  stack_reconcileM cenv fuel parentDom instOpt (some node) path st

/-- Witness for claim C10: mounting a component that throws still leaves
the stack balanced, and the error propagates. -/
theorem claimC10_witness :
    rootThrow.ty = NType.comp 1 "T" ∧
    (reconcileM cenvThrow 30 0 none (some rootThrow) "" initState).1 =
      Except.error (RErr.userThrow "boom") ∧
    ((reconcileM cenvThrow 30 0 none (some rootThrow) "" initState).2).stack =
      initState.stack := by
  refine ⟨rfl, by rfl, claimC10 cenvThrow 30 0 none rootThrow "" initState 1 "T" rfl⟩

/-- Claim C4: for a component invocation with active path p, useEffect at a
slot behaves as follows.  If the slot holds a previous effect record and the
new deps array is shallow-equal to the recorded deps, nothing is pushed onto
the effect queue and the whole context is unchanged except for the cursor
bump (the previous slot record is carried forward unchanged).  If there is
no previous record, or deps is undefined, or deps is not shallow-equal to
the recorded deps, then the previously stored cleanup (when non-null) is
pushed onto the effect queue before the new effect body entry, a fresh slot
record is written, and the cursor is bumped. -/
theorem claimC4 (eid : Nat) (deps : Option (List JSVal)) (st : GState) (p : String)
    (hp : st.stack.getLast? = some p) :
    (∀ r d, (currentHooksOf st p).get? (currentCursorOf st p) = some (HookSlot.effectSlot r) →
      deps = some d → shallowEqualsDeps r.deps d = true →
      useEffectM eid deps st =
        (Except.ok (), { st with hcursor := setA st.hcursor p (currentCursorOf st p + 1) })) ∧
    (effectShouldRun (currentHooksOf st p) (currentCursorOf st p) deps = true →
      hasA st.hstate p = true →
      (useEffectM eid deps st).1 = Except.ok () ∧
      ((useEffectM eid deps st).2).effectQ =
        st.effectQ ++ prevCleanupEntries p (currentCursorOf st p) (currentHooksOf st p)
          ++ [QEntry.effectE p (currentCursorOf st p) eid] ∧
      lookupA ((useEffectM eid deps st).2).hstate p =
        some (writeEffectSlot (currentHooksOf st p) (currentCursorOf st p) deps eid) ∧
      lookupA ((useEffectM eid deps st).2).hcursor p = some (currentCursorOf st p + 1)) := by
  constructor
  · intro r d hslot hdeps heq
    subst hdeps
    have hlt : ¬ ((currentHooksOf st p).length ≤ currentCursorOf st p) := by
      intro hle
      rw [List.get?_eq_none.mpr hle] at hslot
      cases hslot
    unfold useEffectM
    simp only [bind_apply, getS_apply, modifyS_apply, pure_apply, currentPathM, hp, hslot, heq]
    simp [hlt, bind_apply, modifyS_apply, pure_apply]
  · intro hrun hhas
    unfold useEffectM
    simp only [bind_apply, getS_apply, modifyS_apply, pure_apply, currentPathM, hp,
      writeHooksBack, List.get?_eq_getElem?]
    rcases hget : (currentHooksOf st p)[currentCursorOf st p]? with _ | slot
    · simp only [hget]
      simp [prevCleanupEntries, writeEffectSlot, hget, hhas, lookupA_setA_self, bind_apply, modifyS_apply, pure_apply]
    · cases slot with
      | stateSlot v =>
        simp only [hget]
        simp [prevCleanupEntries, writeEffectSlot, hget, hhas, lookupA_setA_self, bind_apply, modifyS_apply, pure_apply]
      | effectSlot r =>
        cases deps with
        | none =>
          simp only [hget]
          rcases hcl : r.cleanup with _ | c <;>
            simp [prevCleanupEntries, writeEffectSlot, hget, hcl, hhas, lookupA_setA_self, bind_apply, modifyS_apply, pure_apply]
        | some d =>
          rcases hse : shallowEqualsDeps r.deps d with _ | _
          · simp only [hget, hse]
            rcases hcl : r.cleanup with _ | c <;>
              simp [prevCleanupEntries, writeEffectSlot, hget, hse, hcl, hhas, lookupA_setA_self, bind_apply, modifyS_apply, pure_apply]
          · exfalso
            simp [effectShouldRun, hget, hse] at hrun


/-- Witness for claim C4: the first invocation of an effect at a fresh slot
queues exactly the effect entry (no cleanup) and writes the fresh record. -/
theorem claimC4_witness :
    (useEffectM 5 (some [JSVal.vnum 1]) c4W).1 = Except.ok () ∧
    ((useEffectM 5 (some [JSVal.vnum 1]) c4W).2).effectQ = [QEntry.effectE "p" 0 5] ∧
    lookupA ((useEffectM 5 (some [JSVal.vnum 1]) c4W).2).hstate "p" =
      some [HookSlot.effectSlot { deps := some [JSVal.vnum 1], cleanup := none, effectId := 5 }] ∧
    lookupA ((useEffectM 5 (some [JSVal.vnum 1]) c4W).2).hcursor "p" = some 1 := by
  have h := (claimC4 5 (some [JSVal.vnum 1]) c4W "p" rfl).2 (by decide) (by decide)
  refine ⟨h.1, ?_, ?_, ?_⟩
  · have h2 := h.2.1
    simpa [c4W, initState, prevCleanupEntries, currentCursorOf, currentHooksOf, lookupA] using h2
  · have h3 := h.2.2.1
    simpa [c4W, initState, writeEffectSlot, currentCursorOf, currentHooksOf, lookupA] using h3
  · have h4 := h.2.2.2
    simpa [c4W, initState, currentCursorOf, lookupA] using h4


/-- Running enqueueRender: absorbed while a render is pending, otherwise it
sets the pending flag and schedules one render task. -/
theorem enqueueRenderM_spec (st : GState) :
    enqueueRenderM st =
      (Except.ok (),
        if st.renderPending then st
        else { st with renderPending := true, micro := st.micro ++ [GTask.renderT] }) := by
  unfold enqueueRenderM
  simp only [bind_apply, getS_apply, modifyS_apply, pure_apply]
  by_cases h : st.renderPending = true <;> simp only [h, if_true, if_false, ite_true, ite_false] <;> rfl

theorem setSlotWrite_hstate_ne (s : Setter) (v : JSVal) (st : GState) (q : String)
    (hq : q ≠ s.path) :
    lookupA (setSlotWrite s v st).hstate q = lookupA st.hstate q := by
  unfold setSlotWrite
  by_cases hhas : hasA st.hstate s.path <;>
    simp [hhas, lookupA_setA_ne _ _ _ _ hq]

theorem setSlotWrite_hstate_self (s : Setter) (v : JSVal) (st : GState)
    (hooks : List HookSlot) (hh : lookupA st.hstate s.path = some hooks) :
    lookupA (setSlotWrite s v st).hstate s.path =
      some (setIdxL hooks s.cursor (HookSlot.stateSlot v) (HookSlot.stateSlot JSVal.vundef)) := by
  unfold setSlotWrite
  have hhas : hasA st.hstate s.path = true := by simp [hasA, hh]
  simp [hhas, currentHooksOf, hh, lookupA_setA_self]

theorem setSlotWrite_pending (s : Setter) (v : JSVal) (st : GState) :
    (setSlotWrite s v st).renderPending = st.renderPending ∧
    (setSlotWrite s v st).micro = st.micro := by
  unfold setSlotWrite
  by_cases hhas : hasA st.hstate s.path <;> simp [hhas]

/-- Claim C7 fails as stated: the setter compares against the state value it
captured at its creation, not against the live slot value.  Reachable
counterexample: a component holds state 1 and its setter (captured value 1)
escapes; it is called with 2 (the slot becomes 2, one render pass runs, and
the pending flag clears); calling the same stale setter again with 2 — a
value identical under Object.is to the current slot value 2 — nevertheless
schedules another render pass. -/
theorem claimC7_counterexample :
    lookupA c7c.hstate "" = some [HookSlot.stateSlot (JSVal.vnum 2)] ∧
    jsIs (JSVal.vnum 2) (setArgValue c7setter (SetArg.val (JSVal.vnum 2))) = true ∧
    c7c.renderPending = false ∧
    c7d.renderPending = true ∧
    c7d.micro = c7c.micro ++ [GTask.renderT] := by
  decide

/-- Claim C7 amended: the setter compares the new value (or updater result)
against the state value captured at its creation.  When they are identical
under Object.is the call is a complete no-op: the context is untouched and
no render is requested.  When they differ, the slot at the setter path and
cursor is overwritten (other paths untouched) and a render is requested:
exactly one render task is scheduled when none is pending, and the request
is absorbed when one is already pending. -/
theorem claimC7 (s : Setter) (arg : SetArg) (st : GState) :
    (jsIs s.captured (setArgValue s arg) = true →
      setStateM s arg st = (Except.ok (), st)) ∧
    (jsIs s.captured (setArgValue s arg) = false →
      (setStateM s arg st).1 = Except.ok () ∧
      (∀ q, q ≠ s.path →
        lookupA ((setStateM s arg st).2).hstate q = lookupA st.hstate q) ∧
      (∀ hooks, lookupA st.hstate s.path = some hooks →
        lookupA ((setStateM s arg st).2).hstate s.path =
          some (setIdxL hooks s.cursor (HookSlot.stateSlot (setArgValue s arg))
            (HookSlot.stateSlot JSVal.vundef))) ∧
      (st.renderPending = false →
        ((setStateM s arg st).2).renderPending = true ∧
        ((setStateM s arg st).2).micro = st.micro ++ [GTask.renderT]) ∧
      (st.renderPending = true →
        ((setStateM s arg st).2).renderPending = true ∧
        ((setStateM s arg st).2).micro = st.micro)) := by
  have harg : (match arg with | SetArg.val v => v | SetArg.upd f => f s.captured) =
      setArgValue s arg := by
    cases arg <;> rfl
  constructor
  · intro hsame
    unfold setStateM
    simp only [harg, hsame]
    rfl
  · intro hdiff
    have hrun : setStateM s arg st =
        enqueueRenderM (setSlotWrite s (setArgValue s arg) st) := by
      unfold setStateM
      simp only [harg, hdiff, Bool.false_eq_true, if_false]
      rfl
    have hsp := setSlotWrite_pending s (setArgValue s arg) st
    rw [hrun, enqueueRenderM_spec]
    by_cases hpend : st.renderPending = true
    · have hcond : (setSlotWrite s (setArgValue s arg) st).renderPending = true := by
        rw [hsp.1, hpend]
      refine ⟨by simp [hcond], ?_, ?_, ?_, ?_⟩
      · intro q hq
        simp only [hcond, ite_true, if_true]
        exact setSlotWrite_hstate_ne s _ st q hq
      · intro hooks hh
        simp only [hcond, ite_true, if_true]
        exact setSlotWrite_hstate_self s _ st hooks hh
      · intro hp
        rw [hp] at hpend
        simp at hpend
      · intro _
        simp [hcond, hsp.2]
    · have hcond : (setSlotWrite s (setArgValue s arg) st).renderPending = false := by
        rw [hsp.1]
        simpa using hpend
      refine ⟨by simp [hcond], ?_, ?_, ?_, ?_⟩
      · intro q hq
        simp only [hcond, Bool.false_eq_true, ite_false, if_false]
        exact setSlotWrite_hstate_ne s _ st q hq
      · intro hooks hh
        simp only [hcond, Bool.false_eq_true, ite_false, if_false]
        exact setSlotWrite_hstate_self s _ st hooks hh
      · intro _
        simp [hcond, hsp.2]
      · intro hp
        rw [hp] at hpend
        simp at hpend

/-- Witness for the amended claim C7: an identical captured value is a
no-op; a different value writes the slot and schedules one render task. -/
theorem claimC7_witness :
    setStateM c7setter (SetArg.val (JSVal.vnum 1)) c4W = (Except.ok (), c4W) ∧
    ((setStateM { path := "p", cursor := 0, captured := JSVal.vnum 1 }
        (SetArg.val (JSVal.vnum 5)) c4W).2).renderPending = true ∧
    ((setStateM { path := "p", cursor := 0, captured := JSVal.vnum 1 }
        (SetArg.val (JSVal.vnum 5)) c4W).2).micro = c4W.micro ++ [GTask.renderT] ∧
    lookupA ((setStateM { path := "p", cursor := 0, captured := JSVal.vnum 1 }
        (SetArg.val (JSVal.vnum 5)) c4W).2).hstate "p" =
      some (setIdxL [] 0 (HookSlot.stateSlot (JSVal.vnum 5)) (HookSlot.stateSlot JSVal.vundef)) := by
  have h1 := (claimC7 c7setter (SetArg.val (JSVal.vnum 1)) c4W).1 (by decide)
  have h2 := (claimC7 { path := "p", cursor := 0, captured := JSVal.vnum 1 }
    (SetArg.val (JSVal.vnum 5)) c4W).2 (by decide)
  exact ⟨h1, (h2.2.2.2.1 (by decide)).1, (h2.2.2.2.1 (by decide)).2,
    h2.2.2.1 [] (by decide)⟩


theorem mem_keys_of_lookupA {κ α : Type} [DecidableEq κ] (l : List (κ × α)) (k : κ)
    (h : (lookupA l k).isSome) : k ∈ l.map Prod.fst := by
  induction l with
  | nil => simp [lookupA] at h
  | cons hd t ih =>
    obtain ⟨a, b⟩ := hd
    by_cases hk : a = k
    · simp [hk]
    · simp only [lookupA, hk, if_false, ite_false] at h
      simp [ih (by simpa [lookupA, Ne.symm hk, hk] using h)]

theorem lookupA_foldl_removeA {κ α : Type} [DecidableEq κ] (paths : List κ)
    (l : List (κ × α)) (q : κ) :
    lookupA (paths.foldl (fun m p => removeA m p) l) q =
      if q ∈ paths then none else lookupA l q := by
  induction paths generalizing l with
  | nil => simp
  | cons p rest ih =>
    simp only [List.foldl_cons]
    rw [ih]
    by_cases hq : q ∈ rest
    · simp [hq]
    · by_cases hqp : q = p
      · subst hqp
        simp [hq, lookupA_removeA_self]
      · simp [hq, hqp, lookupA_removeA_ne _ _ _ hqp]

/-- Claim C6: after a render pass, garbage collection of the hook store
removes the slot list and the cursor of every stored path that was not
visited during the pass and clears the visited set, while every visited
path keeps its slots and cursor untouched.  Consequently (concrete
scenario) a child component whose parent stops rendering it loses its
state after the next pass, and mounting a component at the same identity
path afterwards starts from the fresh initial state. -/
theorem claimC6 :
    (∀ st : GState,
      (cleanupUnusedHooksM st).1 = Except.ok () ∧
      ((cleanupUnusedHooksM st).2).visited = [] ∧
      (∀ p, st.visited.contains p = false → hasA st.hstate p = true →
        lookupA ((cleanupUnusedHooksM st).2).hstate p = none ∧
        lookupA ((cleanupUnusedHooksM st).2).hcursor p = none) ∧
      (∀ p, st.visited.contains p = true →
        lookupA ((cleanupUnusedHooksM st).2).hstate p = lookupA st.hstate p ∧
        lookupA ((cleanupUnusedHooksM st).2).hcursor p = lookupA st.hcursor p)) ∧
    (lookupA c6b.hstate childPathS = some [HookSlot.stateSlot (JSVal.vnum 99)] ∧
     lookupA c6d.hstate childPathS = none ∧
     lookupA c6d.hcursor childPathS = none ∧
     lookupA ((runR (reconcileM cenvGC 10 1 none (some childCV) childPathS) c6d).2).hstate
       childPathS = some [HookSlot.stateSlot (JSVal.vnum 7)]) := by
  constructor
  · intro st
    unfold cleanupUnusedHooksM
    simp only [bind_apply, getS_apply, modifyS_apply, pure_apply]
    refine ⟨trivial, trivial, ?_, ?_⟩
    · intro p hnv hhas
      have hmem : p ∈ (st.hstate.map Prod.fst).filter (fun q => ¬ st.visited.contains q) := by
        rw [List.mem_filter]
        refine ⟨mem_keys_of_lookupA st.hstate p hhas, ?_⟩
        simpa using hnv
      constructor
      · rw [lookupA_foldl_removeA, if_pos hmem]
      · rw [lookupA_foldl_removeA, if_pos hmem]
    · intro p hv
      have hnmem : p ∉ (st.hstate.map Prod.fst).filter (fun q => ¬ st.visited.contains q) := by
        rw [List.mem_filter]
        simp only [not_and]
        intro _
        simpa using hv
      constructor
      · rw [lookupA_foldl_removeA, if_neg hnmem]
      · rw [lookupA_foldl_removeA, if_neg hnmem]
  · decide

/-- Witness for claim C6 instantiating the general part: a context with a
stored but unvisited path q and a visited path v keeps v and drops q. -/
theorem claimC6_witness :
    lookupA ((cleanupUnusedHooksM { initState with
      hstate := [("q", [HookSlot.stateSlot (JSVal.vnum 3)]), ("v", [])],
      hcursor := [("q", 1), ("v", 0)], visited := ["v"] }).2).hstate "q" = none ∧
    lookupA ((cleanupUnusedHooksM { initState with
      hstate := [("q", [HookSlot.stateSlot (JSVal.vnum 3)]), ("v", [])],
      hcursor := [("q", 1), ("v", 0)], visited := ["v"] }).2).hcursor "q" = none ∧
    lookupA ((cleanupUnusedHooksM { initState with
      hstate := [("q", [HookSlot.stateSlot (JSVal.vnum 3)]), ("v", [])],
      hcursor := [("q", 1), ("v", 0)], visited := ["v"] }).2).hstate "v" = some [] := by
  have h := claimC6.1 { initState with
    hstate := [("q", [HookSlot.stateSlot (JSVal.vnum 3)]), ("v", [])],
    hcursor := [("q", 1), ("v", 0)], visited := ["v"] }
  have hq := h.2.2.1 "q" (by decide) (by decide)
  have hv := h.2.2.2 "v" (by decide)
  exact ⟨hq.1, hq.2, by rw [hv.1]; decide⟩


theorem runDeferredGo_noPush (ds : List Nat) (st : FState) :
    runDeferredGo cbEnv0 ds st =
      { queue := st.queue, trace := st.trace ++ ds.map FEvent.effectRun,
        deferred := st.deferred } := by
  induction ds generalizing st with
  | nil => simp [runDeferredGo]
  | cons f rest ih =>
    simp [runDeferredGo, cbEnv0, ih]

theorem drainGo_noPush (q : List QEntry) :
    ∀ (fuel : Nat) (t : List FEvent) (d : List Nat), q.length ≤ fuel →
      drainGo cbEnv0 fuel { queue := q, trace := t, deferred := d } =
        some { queue := [], trace := t ++ (cleanupIdsOf q).map FEvent.cleanupRun,
               deferred := d ++ effectIdsOf q } := by
  induction q with
  | nil =>
    intro fuel t d h
    cases fuel <;> simp [drainGo, cleanupIdsOf, effectIdsOf]
  | cons e rest ih =>
    intro fuel t d h
    cases fuel with
    | zero => simp at h
    | succ n =>
      have hn : rest.length ≤ n := by
        simpa using h
      cases e with
      | cleanupE p c f =>
        show drainGo cbEnv0 n _ = _
        rw [show rest ++ cbEnv0 f = rest from by simp [cbEnv0]]
        rw [ih n _ _ hn]
        simp [cleanupIdsOf, effectIdsOf, List.filterMap_cons]
      | effectE p c f =>
        show drainGo cbEnv0 n _ = _
        rw [ih n _ _ hn]
        simp [cleanupIdsOf, effectIdsOf, List.filterMap_cons]

/-- Claim C5 fails as stated: during the synchronous drain an effect entry
is not run at the moment it is dequeued — it is handed to enqueue and runs
only after the drain returns — and an entry pushed onto the effect queue by
such a deferred effect body is not processed by that flush at all: it is
still sitting in the queue when the flush is over. -/
theorem claimC5_counterexample :
    drainGo cbEnvA 10 { queue := [QEntry.effectE "p" 0 7], trace := [], deferred := [] } =
      some { queue := [], trace := [], deferred := [7] } ∧
    flushOnce cbEnvA 10 [QEntry.effectE "p" 0 7] =
      some { queue := [QEntry.cleanupE "p" 0 8], trace := [FEvent.effectRun 7],
             deferred := [] } := by
  decide

/-- Claim C5 amended: the flush drains the queue in strict FIFO order;
each cleanup entry runs at the moment it is dequeued, while each effect
entry is handed to enqueue at the moment it is dequeued and its body runs
only after the synchronous drain completes (so every cleanup of the drain
runs before every effect body of the same flush, each group in FIFO
order).  Entries enqueued during the drain by a running cleanup are still
processed by the same flush loop, because draining continues until the
queue is empty; entries enqueued by a deferred effect body after the drain
are not. -/
theorem claimC5 (q : List QEntry) (fuel : Nat) (h : q.length ≤ fuel) :
    drainGo cbEnv0 fuel { queue := q, trace := [], deferred := [] } =
      some { queue := [], trace := (cleanupIdsOf q).map FEvent.cleanupRun,
             deferred := effectIdsOf q } ∧
    flushOnce cbEnv0 fuel q =
      some { queue := [],
             trace := (cleanupIdsOf q).map FEvent.cleanupRun
               ++ (effectIdsOf q).map FEvent.effectRun,
             deferred := [] } ∧
    flushOnce cbEnvB 10 [QEntry.cleanupE "p" 0 1, QEntry.effectE "p" 0 2] =
      some { queue := [],
             trace := [FEvent.cleanupRun 1, FEvent.cleanupRun 3, FEvent.effectRun 2],
             deferred := [] } := by
  have hd := drainGo_noPush q fuel [] [] h
  refine ⟨by simpa using hd, ?_, by decide⟩
  unfold flushOnce
  rw [hd]
  simp [runDeferredGo_noPush]

/-- Witness for the amended claim C5 at a concrete queue. -/
theorem claimC5_witness :
    drainGo cbEnv0 5
        { queue := [QEntry.cleanupE "a" 0 4, QEntry.effectE "a" 0 5], trace := [], deferred := [] } =
      some { queue := [], trace := [FEvent.cleanupRun 4], deferred := [5] } ∧
    flushOnce cbEnv0 5 [QEntry.cleanupE "a" 0 4, QEntry.effectE "a" 0 5] =
      some { queue := [], trace := [FEvent.cleanupRun 4, FEvent.effectRun 5],
             deferred := [] } := by
  have h := claimC5 [QEntry.cleanupE "a" 0 4, QEntry.effectE "a" 0 5] 5 (by decide)
  refine ⟨?_, ?_⟩
  · have h1 := h.1
    simpa [cleanupIdsOf, effectIdsOf, List.filterMap_cons] using h1
  · have h2 := h.2.1
    simpa [cleanupIdsOf, effectIdsOf, List.filterMap_cons] using h2


/-- Claim C3 fails on the code, which never clears props that are present
only in the old props.  First defect: the reconciler overwrites
instance.node with the new vnode before calling updateDomProps with
instance.node.props as the previous props, so the diff compares the new
props against themselves and removes nothing — here a generic title prop
dropped in the second render is still on the element afterwards.  Second
defect: even updateDomProps applied to the true old and new props leaves a
className present only in the old props untouched, because the className
removal branch of the source is empty.  Both evaluated at the failing
inputs. -/
theorem claimC3_failing :
    c3After.doc.getNode 1 = some (DNode.elemN "div"
      { listeners := [], className := "", style := [], attrs := [],
        gprops := [("title", JSVal.vstr "a")] }) ∧
    updateDomPropsE
        { listeners := [], className := "a", style := [], attrs := [], gprops := [] }
        [("className", JSVal.vstr "a")] [] =
      { listeners := [], className := "a", style := [], attrs := [], gprops := [] } := by
  decide

/-- Claim C2 fails on the code.  Scenario: a div whose first render had
children (exotic vnode, span) — the exotic child mounts to a positional
hole, the span realizes host node 2.  The second render replaces the hole
by a p element: a fresh mid-list mount whose next surviving old sibling
(the span) has a realized host node, so by the claim the p nodes must be
inserted before the span.  The code, however, appends the freshly mounted
p at the end of the container and then skips the corrective insertion,
because the guard (firstDom.parentNode !== parentDom) is false — mount has
already appended the node into parentDom.  The resulting child order of
div 1 is (span 2, p 4), the reverse of the virtual order (p, span). -/
theorem claimC2_failing :
    c2Start.doc.kidsOf 1 = [2] ∧
    c2Start.doc.getNode 2 = some (DNode.elemN "span" ElemProps.empty) ∧
    c2After.doc.kidsOf 1 = [2, 4] ∧
    c2After.doc.getNode 4 = some (DNode.elemN "p" ElemProps.empty) := by
  decide

theorem setA_setA {κ α : Type} [DecidableEq κ] (l : List (κ × α)) (k : κ) (v w : α) :
    setA (setA l k v) k w = setA l k w := by
  induction l with
  | nil => simp [setA]
  | cons hd t ih =>
    obtain ⟨a, b⟩ := hd
    by_cases hk : a = k
    · simp [setA, hk]
    · simp [setA, hk, ih]

/-- Removing an instance from a container and then clearing the container
child list is the same as clearing it outright: the removal only edits the
child list of that container. -/
theorem removeInstanceD_kids_clear (fuel : Nat) (d : Doc) (c : Nat)
    (inst : Option Instance) :
    (removeInstanceD fuel d c inst).nodes = d.nodes ∧
    (removeInstanceD fuel d c inst).nextId = d.nextId ∧
    setA (removeInstanceD fuel d c inst).kids c [] = setA d.kids c [] := by
  unfold removeInstanceD
  generalize getDomNodesF fuel inst = ns
  induction ns generalizing d with
  | nil => exact ⟨rfl, rfl, rfl⟩
  | cons n rest ih =>
    simp only [List.foldl_cons]
    by_cases hp : d.parentOf n = some c
    · rw [if_pos hp]
      obtain ⟨h1, h2, h3⟩ := ih (d.removeChildD c n)
      refine ⟨by rw [h1]; rfl, by rw [h2]; rfl, ?_⟩
      rw [h3]
      exact setA_setA _ _ _ _
    · rw [if_neg hp]
      exact ih d

/-- Claim C9: setup throws when the container is absent and throws when the
root vnode is null, leaving the context exactly as it was (no render
performed); with both valid it removes the previously committed tree,
empties the container, binds the root, clears the hook store entirely
(slot lists, cursors, visited set, call stack), and then performs exactly
one synchronous render pass from that reset context. -/
theorem claimC9 (cenv : CompEnv) (fuel : Nat) (st : GState) (c : Nat) (v : VNode)
    (r : Option VNode) :
    runR (setupM cenv fuel r none) st = (Except.error RErr.missingContainer, st) ∧
    runR (setupM cenv fuel none (some c)) st = (Except.error RErr.nullRootNode, st) ∧
    runR (setupM cenv fuel (some v) (some c)) st =
      runR (renderM cenv fuel)
        { st with
          doc := { st.doc with kids := setA st.doc.kids c [] },
          containerId := some c, rootNode := some v, rootInstance := none,
          hstate := [], hcursor := [], visited := [], stack := [] } := by
  refine ⟨by cases r <;> rfl, rfl, ?_⟩
  show (setupM cenv fuel (some v) (some c)) st = _
  unfold setupM
  simp only [bind_apply, getS_apply, modifyS_apply, pure_apply]
  cases hri : st.rootInstance with
  | none => rfl
  | some inst =>
    obtain ⟨h1, h2, h3⟩ := removeInstanceD_kids_clear fuel st.doc c (some inst)
    show (renderM cenv fuel) _ = (renderM cenv fuel) _
    congr 2
    rw [h3]
    simp [h1, h2]


theorem insertFreshChildM_ok (dfuel parentDom : Nat)
    (childInstance prevChild : Option Instance) (nextSibling : Option Nat) (st : GState) :
    (insertFreshChildM dfuel parentDom childInstance prevChild nextSibling st).1 =
      Except.ok () := by
  unfold insertFreshChildM
  split
  · rename_i ci anchor
    simp only [bind_apply, getS_apply]
    cases hfd : getFirstDomF dfuel (some ci) with
    | none => rfl
    | some fd =>
      dsimp only
      by_cases hc : st.doc.parentOf fd ≠ some parentDom
      · rw [if_pos hc]
        rfl
      · rw [if_neg hc]
        rfl
  · rfl

/-- A missing next child at an index of the child loop: the old occupant of
that index (when present) has its host nodes removed from the parent, and
the new children list records a hole at that index. -/
theorem reconChildStep_missing (recF : RecFn) (dfuel parentDom : Nat)
    (prev : List (Option Instance)) (next : List VNode) (path : String) (i : Nat)
    (st : GState) (h : next.get? i = none) :
    reconChildStep recF dfuel parentDom prev next path i st =
      (Except.ok none,
        { st with doc := removeInstanceD dfuel st.doc parentDom ((prev.get? i).getD none) }) := by
  unfold reconChildStep removePrevChildM
  dsimp only
  simp only [h]
  cases hp : (prev.get? i).getD none with
  | none =>
    simp only [hp]
    have hd : removeInstanceD dfuel st.doc parentDom none = st.doc := by
      cases dfuel <;> rfl
    rw [hd]
    rfl
  | some pc =>
    simp only [hp]
    rfl

/-- A present next child at an index of the child loop is reconciled
against whatever occupied that index previously: the entry stored into the
new children list is exactly the result of the recursive reconcile call on
the previous occupant of index i and the next child at index i. -/
theorem reconChildStep_pair (recF : RecFn) (dfuel parentDom : Nat)
    (prev : List (Option Instance)) (next : List VNode) (path : String) (i : Nat)
    (st : GState) (nc : VNode) (h : next.get? i = some nc) :
    (reconChildStep recF dfuel parentDom prev next path i st).1 =
      (recF parentDom ((prev.get? i).getD none) (some nc)
        (createChildPath path nc.key i nc.ty next) st).1 := by
  unfold reconChildStep
  dsimp only
  simp only [h, isEmptyValueV, Bool.false_eq_true, if_false]
  simp only [bind_apply]
  rcases hres : recF parentDom ((prev.get? i).getD none) (some nc)
    (createChildPath path nc.key i nc.ty next) st with ⟨r, s1⟩
  cases r with
  | error e => rfl
  | ok ci =>
    have hok := insertFreshChildM_ok dfuel parentDom ci ((prev.get? i).getD none)
      (getFirstDomFromChildrenF dfuel (prev.drop (i + 1))) s1
    rcases hins : insertFreshChildM dfuel parentDom ci ((prev.get? i).getD none)
      (getFirstDomFromChildrenF dfuel (prev.drop (i + 1))) s1 with ⟨ri, si⟩
    rw [hins] at hok
    simp only [bind_apply, hins]
    cases ri with
    | error e => exact absurd hok (by simp)
    | ok u => rfl

/-- The child loop processes indices in order; on success the produced list
has one entry per iteration, and every index at which the next-children
list is exhausted yields a hole. -/
theorem reconChildrenGo_spec (recF : RecFn) (dfuel parentDom : Nat)
    (prev : List (Option Instance)) (next : List VNode) (path : String) :
    ∀ (cnt i : Nat) (st : GState) (out : List (Option Instance)) (st2 : GState),
      reconChildrenGo recF dfuel parentDom prev next path cnt i st = (Except.ok out, st2) →
      out.length = cnt ∧
      ∀ j, j < cnt → next.get? (i + j) = none → out.get? j = some none := by
  intro cnt
  induction cnt with
  | zero =>
    intro i st out st2 hrun
    unfold reconChildrenGo at hrun
    simp only [pure_apply, Prod.mk.injEq, Except.ok.injEq] at hrun
    obtain ⟨h1, _⟩ := hrun
    subst h1
    exact ⟨rfl, by intro j hj; omega⟩
  | succ n ih =>
    intro i st out st2 hrun
    unfold reconChildrenGo at hrun
    simp only [bind_apply] at hrun
    rcases hstep : reconChildStep recF dfuel parentDom prev next path i st with ⟨r1, s1⟩
    rw [hstep] at hrun
    cases r1 with
    | error e => simp at hrun
    | ok c =>
      dsimp only at hrun
      rcases hgo : reconChildrenGo recF dfuel parentDom prev next path n (i + 1) s1
        with ⟨r2, s2⟩
      rw [hgo] at hrun
      cases r2 with
      | error e => simp at hrun
      | ok rest =>
        simp only [pure_apply, Prod.mk.injEq, Except.ok.injEq] at hrun
        obtain ⟨h1, _⟩ := hrun
        subst h1
        obtain ⟨ihl, ihn⟩ := ih (i + 1) s1 rest s2 hgo
        refine ⟨by simp [ihl], ?_⟩
        intro j hj hnone
        cases j with
        | zero =>
          have hmiss := reconChildStep_missing recF dfuel parentDom prev next path i st
            (by simpa using hnone)
          rw [hmiss] at hstep
          have hc : (Except.ok (none : Option Instance) :
              Except RErr (Option Instance)) = Except.ok c := congrArg Prod.fst hstep
          have hc2 : (none : Option Instance) = c := by
            injection hc
          simp [← hc2]
        | succ jj =>
          have harith : i + 1 + jj = i + (jj + 1) := by omega
          have := ihn jj (by omega) (by rw [harith]; exact hnone)
          simpa using this

/-- Claim C1: child reconciliation matches children pairwise by index up to
max(prevLen, nextLen).  Part 1: on success the new children list of
reconcileChildren has exactly max(prevLen, nextLen) entries, and every
index past the end of the new child list yields a hole.  Part 2: at an
index with no next child, the old occupant of that index is removed.
Part 3: at an index with a next child, the stored result is exactly the
recursive reconcile of (old occupant at i, next child at i).  Part 4
(concrete): re-rendering unkeyed text children A, B, C as X, A, B, C
mutates the existing three text nodes in place to X, A, B (matching by
index, not recognizing the prepend) and appends one new node C. -/
theorem claimC1 :
    (∀ (recF : RecFn) (dfuel parentDom : Nat) (inst0 : Instance) (node : VNode)
        (path : String) (st : GState) (out : List (Option Instance)) (st2 : GState),
      runR (reconcileChildrenM recF dfuel parentDom inst0 node path) st =
        (Except.ok out, st2) →
      out.length = max inst0.children.length
        ((node.children.filter (fun c => ¬ isEmptyValueV c)).length) ∧
      ∀ j, j < out.length →
        (node.children.filter (fun c => ¬ isEmptyValueV c)).get? j = none →
        out.get? j = some none) ∧
    (∀ (recF : RecFn) (dfuel parentDom : Nat) (prev : List (Option Instance))
        (next : List VNode) (path : String) (i : Nat) (st : GState),
      next.get? i = none →
      reconChildStep recF dfuel parentDom prev next path i st =
        (Except.ok none,
          { st with doc := removeInstanceD dfuel st.doc parentDom ((prev.get? i).getD none) })) ∧
    (∀ (recF : RecFn) (dfuel parentDom : Nat) (prev : List (Option Instance))
        (next : List VNode) (path : String) (i : Nat) (st : GState) (nc : VNode),
      next.get? i = some nc →
      (reconChildStep recF dfuel parentDom prev next path i st).1 =
        (recF parentDom ((prev.get? i).getD none) (some nc)
          (createChildPath path nc.key i nc.ty next) st).1) ∧
    (c1Start.doc.kidsOf 1 = [2, 3, 4] ∧
     (c1Start.doc.getNode 2, c1Start.doc.getNode 3, c1Start.doc.getNode 4) =
       (some (DNode.textN "A"), some (DNode.textN "B"), some (DNode.textN "C")) ∧
     c1After.doc.kidsOf 1 = [2, 3, 4, 5] ∧
     (c1After.doc.getNode 2, c1After.doc.getNode 3, c1After.doc.getNode 4,
       c1After.doc.getNode 5) =
       (some (DNode.textN "X"), some (DNode.textN "A"), some (DNode.textN "B"),
        some (DNode.textN "C"))) := by
  refine ⟨?_, ?_, ?_, by decide⟩
  · intro recF dfuel parentDom inst0 node path st out st2 hrun
    unfold reconcileChildrenM at hrun
    dsimp only at hrun
    obtain ⟨hl, hn⟩ := reconChildrenGo_spec recF dfuel parentDom inst0.children
      (node.children.filter (fun c => ¬ isEmptyValueV c)) path _ 0 st out st2 hrun
    refine ⟨hl, ?_⟩
    intro j hj hnone
    rw [hl] at hj
    exact hn j hj (by simpa using hnone)
  · intro recF dfuel parentDom prev next path i st h
    exact reconChildStep_missing recF dfuel parentDom prev next path i st h
  · intro recF dfuel parentDom prev next path i st nc h
    exact reconChildStep_pair recF dfuel parentDom prev next path i st nc h

/-- Witness for claim C1, instantiating each general part at a concrete
input. -/
theorem claimC1_witness :
    ([(none : Option Instance)].length =
      max ([] : List (Option Instance)).length
        (((hostV "div" [] [textV "A"]).children.filter (fun c => ¬ isEmptyValueV c)).length)) ∧
    reconChildStep recNone 5 0 [] [] "" 0 initState =
      (Except.ok none,
        { initState with doc := removeInstanceD 5 initState.doc 0 (([].get? 0).getD none) }) ∧
    (reconChildStep recNone 5 0 [] [textV "A"] "" 0 initState).1 =
      (recNone 0 (([].get? 0).getD none) (some (textV "A"))
        (createChildPath "" (textV "A").key 0 (textV "A").ty [textV "A"]) initState).1 := by
  refine ⟨?_, ?_, ?_⟩
  · have h1 := claimC1.1 recNone 5 0
      (Instance.mk NodeKind.hostK (some 1) (hostV "div" [] []) [] none "")
      (hostV "div" [] [textV "A"]) "" initState [none] initState rfl
    exact h1.1
  · exact claimC1.2.1 recNone 5 0 [] [] "" 0 initState rfl
  · exact claimC1.2.2.1 recNone 5 0 [] [textV "A"] "" 0 initState (textV "A") rfl

end MiniReact
